import Mathlib

/-!
# Publish/subscribe client: command-line front end

A shallow embedding of `src/client/main.cpp`: the functions `getPortNumber`,
`isValidIPv4Address` and `main`; of the declaration of
`ClientConnection::SendMessage` in `src/server/clientconnection.h`; and, from
the specification, of the broker's topics, which are not among the sources.

Conventions of the embedding.

* A C++ `std::string` / C string is a Lean `String` read through
  `String.data`: every `Char` stands for one `char` of the C++ string (its
  code is the byte value) and NUL does not occur inside a string.  The only
  characters the program inspects are `'.'`, `'-'`, `'+'`, the decimal digits
  and the white space of the "C" locale.
* `int` values are `Int`; the only place where the width of `int` matters is
  the range check of `std::stoi`, which is explicit.
* Behaviour the C++ standard leaves undefined is an explicit outcome
  (`UB`), never a silently chosen value.
* The class `Client` is not part of the sources at hand.  Its constructor is a
  parameter `construct` (does construction succeed for these arguments, or
  does it throw `runtime_error`), and the member functions called on it are
  recorded as a trace of `ClientCall`s.
* Logging (`spdlog`) and the usage text are not modelled; they do not
  influence the control flow.
-/

namespace PubSub

/-! ## Undefined behaviour and exceptions -/

/-- The ways in which the program can leave defined behaviour. -/
inductive UB where
  /-- `std::string::back()` on an empty string. -/
  | emptyBack
  /-- Reading a C string past its terminating NUL. -/
  | pastTerminator
  /-- Reading `argv[k]` with `k >= argc`. -/
  | argvIndex
  /-- `front()` / `back()` on an empty `std::list`. -/
  | emptyList
  deriving DecidableEq, Repr

/-- The two exceptions `std::stoi` throws. -/
inductive StoiError where
  | invalidArgument
  | outOfRange
  deriving DecidableEq, Repr

deriving instance DecidableEq for Except

/-! ## `std::stoi` -/

/-- The characters `isspace` accepts in the "C" locale. -/
def isSpace (c : Char) : Bool :=
  c = ' ' || c = '\t' || c = '\n' || c = '\x0b' || c = '\x0c' || c = '\r'

/-- Value of a digit character. -/
def digitVal (c : Char) : Nat := c.toNat - 48

/-- Value of a run of decimal digits, most significant first. -/
def digitsVal (ds : List Char) : Nat :=
  ds.foldl (fun acc c => 10 * acc + digitVal c) 0

/-- Optional sign of `strtol`: the flag says whether a `'-'` was read; the
list is what follows the sign. -/
def stripSign (cs : List Char) : Bool × List Char :=
  match cs with
  | [] => (false, [])
  | c :: rest =>
    if c = '-' then (true, rest)
    else if c = '+' then (false, rest)
    else (false, c :: rest)

/-- The value `strtol` computes from the sign and the magnitude. -/
def signedVal (negative : Bool) (magnitude : Nat) : Int :=
  if negative then -(magnitude : Int) else (magnitude : Int)

/-- The function `std::stoi(str, nullptr, 10)` (also `std::stoi(str)`):
`strtol` skips leading white space, reads an optional sign and then the
longest run of decimal digits; whatever follows is ignored.  No digit at all
is `invalid_argument`; a value that does not fit an `int` is `out_of_range`. -/
def stoi (str : String) : Except StoiError Int :=
  let afterSpace := str.data.dropWhile isSpace
  let signed := stripSign afterSpace
  let ds := signed.2.takeWhile Char.isDigit
  if ds = [] then
    .error .invalidArgument
  else
    let v := signedVal signed.1 (digitsVal ds)
    if v < -2147483648 ∨ v > 2147483647 then
      .error .outOfRange
    else
      .ok v

/-! ## `getPortNumber` (main.cpp, lines 214-229) -/

/-- The function `getPortNumber`: any exception of `stoi` gives `-1`, and so
does a value outside `0..65535`. -/
def getPortNumber (portStr : String) : Int :=
  match stoi portStr with
  | .error _ => -1
  | .ok port =>
    if port > 65535 ∨ port < 0 then
      -1
    else
      port

/-! ## `isValidIPv4Address` (main.cpp, lines 231-258) -/

/-- One call `getline(ss, octet, delim)` on a stream whose unread content is
`ss`: `none` when the call fails (nothing left to read), otherwise the
extracted field and the content left unread.  The delimiter is extracted and
dropped. -/
def getline (ss : List Char) (delim : Char) : Option (List Char × List Char) :=
  match ss with
  | [] => none
  | _ => some (ss.takeWhile (fun c => c != delim), (ss.dropWhile (fun c => c != delim)).tail)

/-- The `while (getline(ss, octet, '.'))` loop of `isValidIPv4Address`:
`some n` is the final `octetCount` when the loop runs to the end of the
stream, `none` is a `return false` from inside the loop.  The fuel bounds the
number of `getline` calls; `String.length + 1` is always enough
(`octetLoop_fuel`). -/
def octetLoop : Nat → List Char → Nat → Option (Option Nat)
  | 0, _, _ => none
  | fuel + 1, ss, octetCount =>
    match getline ss '.' with
    | none => some (some octetCount)
    | some (octet, rest) =>
      match stoi (String.mk octet) with
      | .ok value =>
        if value < 0 ∨ value > 255 then
          some none
        else
          octetLoop fuel rest (octetCount + 1)
      | .error _ => some none

/-- The function `isValidIPv4Address`.  `back()` on an empty string is
undefined behaviour.  The result `none` of `octetLoop` (fuel exhausted) does
not occur with the fuel given here (`octetLoop_fuel`). -/
def isValidIPv4Address (ipAddress : String) : Except UB Bool :=
  match ipAddress.data.getLast? with
  | none => .error .emptyBack
  | some last =>
    if last = '.' then
      .ok false
    else
      match octetLoop (ipAddress.length + 1) ipAddress.data 0 with
      | some (some octetCount) => if octetCount ≠ 4 then .ok false else .ok true
      | some none => .ok false
      | none => .ok false

/-! ## `main` (main.cpp, lines 25-183) -/

/-- The local variables of `main` that the argument scan reads and writes:
the loop counter `i` and the values parsed so far.  The field `debug` records
the call `spdlog::set_level(spdlog::level::debug)`. -/
structure ParseState where
  i : Nat
  port : Int
  serverAddress : String
  serverPort : Int
  command : String
  arguments : List String
  hasSubscribeCommand : Bool
  debug : Bool
  deriving DecidableEq, Repr

/-- The values of the locals when the scan starts (lines 29-38). -/
def initialState : ParseState :=
  { i := 1, port := 0, serverAddress := "127.0.0.1", serverPort := 8080,
    command := "", arguments := [], hasSubscribeCommand := false, debug := false }

/-- What one pass through the body of the `for` loop does: fall through to
the loop increment with new values of the locals, `return` from `main`, or
leave defined behaviour. -/
inductive Step where
  | next (st : ParseState)
  | ret (code : Int)
  | undefined (u : UB)
  deriving DecidableEq, Repr

/-- The expression `p[k]` for a C string `p` with content `s`: the characters
of `s`, then the terminating NUL; anything beyond is out of bounds. -/
def cstrAt (s : String) (k : Nat) : Except UB Char :=
  match s.data[k]? with
  | some c => .ok c
  | none => if k = s.data.length then .ok '\x00' else .error .pastTerminator

/-- The condition `argv[i + 1][0] != '-' && argv[i + 1][1] != '-'` of the two
topic loops, for `a = argv[i + 1]`.  The second character is read only when
the first conjunct holds. -/
def topicCond (a : String) : Except UB Bool :=
  match cstrAt a 0 with
  | .error u => .error u
  | .ok c0 =>
    if c0 != '-' then
      match cstrAt a 1 with
      | .error u => .error u
      | .ok c1 => .ok (c1 != '-')
    else
      .ok false

/-- The `while` loops of lines 98-108 and 122-130.  The list is
`argv[i + 1], argv[i + 2], ...`, so `argc > i + 1` holds exactly when it is
not empty and `argv[i + 1]` is its head; every pass ends with `i += 1`.
`isSubscribe` tells the loops apart: only the first one sets
`hasSubscribeCommand`. -/
def topicLoop (isSubscribe : Bool) : List String → ParseState → Except UB ParseState
  | [], st => .ok st
  | topicName :: following, st =>
    match topicCond topicName with
    | .error u => .error u
    | .ok false => .ok st
    | .ok true =>
      topicLoop isSubscribe following
        { st with
          arguments := st.arguments ++ [topicName]
          hasSubscribeCommand := if isSubscribe then true else st.hasSubscribeCommand
          i := st.i + 1 }

/-- Lines 93-95: the first argument that reaches the `else` block becomes
the command. -/
def setCommand (arg : String) (st : ParseState) : ParseState :=
  if st.command = "" then { st with command := arg } else st

/-- The `if` chain of lines 97-136, entered with `arg = argv[i]` after
`command` has been set. -/
def commandChain (argv : List String) (arg : String) (st : ParseState) : Step :=
  let argc := argv.length
  if arg = "--subscribe" ∧ arg = st.command ∧ argc > st.i + 1 then
    match topicLoop true (argv.drop (st.i + 1)) st with
    | .ok st2 => .next st2
    | .error u => .undefined u
  else if arg = "--publish" ∧ st.arguments.length = 0 ∧ argc > st.i + 2 then
    match argv[st.i + 1]?, argv[st.i + 2]? with
    | some topicName, some topicData =>
      .next { st with arguments := st.arguments ++ [topicName] ++ [topicData], i := st.i + 2 }
    | _, _ => .undefined .argvIndex
  else if arg = "--list-topics" ∧ arg = st.command then
    .next st
  else if arg = "--get-topic-status" ∧ arg = st.command ∧ argc > st.i + 1 then
    match topicLoop false (argv.drop (st.i + 1)) st with
    | .ok st2 => .next st2
    | .error u => .undefined u
  else
    .ret 1

/-- The commands and unknown arguments: the `else` block of lines 89-137,
entered with `arg = argv[i]`. -/
def commandBlock (argv : List String) (arg : String) (st : ParseState) : Step :=
  commandChain argv arg (setCommand arg st)

/-- The body of the `for` loop (lines 39-137), entered with `i < argc`. -/
def loopBody (argv : List String) (st : ParseState) : Step :=
  let argc := argv.length
  match argv[st.i]? with
  | none => .undefined .argvIndex
  | some arg =>
    if arg = "--port" ∧ argc > st.i + 1 then
      match argv[st.i + 1]? with
      | none => .undefined .argvIndex
      | some portStr =>
        let port := getPortNumber portStr
        if port = -1 then
          .ret 1
        else
          .next { st with port := port, i := st.i + 1 }
    else if arg = "--server-address" ∧ argc > st.i + 1 then
      match argv[st.i + 1]? with
      | none => .undefined .argvIndex
      | some serverAddress =>
        match isValidIPv4Address serverAddress with
        | .error u => .undefined u
        | .ok false => .ret 1
        | .ok true => .next { st with serverAddress := serverAddress, i := st.i + 1 }
    else if arg = "--server-port" ∧ argc > st.i + 1 then
      match argv[st.i + 1]? with
      | none => .undefined .argvIndex
      | some serverPortStr =>
        let serverPort := getPortNumber serverPortStr
        if serverPort = -1 then
          .ret 1
        else
          .next { st with serverPort := serverPort, i := st.i + 1 }
    else if arg = "--help" then
      .ret 0
    else if arg = "--debug" then
      .next { st with debug := true }
    else
      commandBlock argv arg st

/-- How the argument scan ends. -/
inductive Scan where
  /-- The loop ran to `i >= argc`. -/
  | done (st : ParseState)
  /-- A `return` from inside the loop. -/
  | ret (code : Int)
  | undefined (u : UB)
  /-- The model ran out of fuel (this never happens, see `forLoop_fuel`). -/
  | outOfFuel
  deriving DecidableEq, Repr

/-- The loop `for (...; i < argc; i++)` of lines 38-138, started in state
`st`.  Every pass increases `i`, so `argc - i` passes are enough. -/
def forLoop (argv : List String) : Nat → ParseState → Scan
  | 0, st => if st.i < argv.length then .outOfFuel else .done st
  | fuel + 1, st =>
    if st.i < argv.length then
      match loopBody argv st with
      | .next st2 => forLoop argv fuel { st2 with i := st2.i + 1 }
      | .ret code => .ret code
      | .undefined u => .undefined u
    else
      .done st

/-- The member functions of `Client` that `main` calls. -/
inductive ClientCall where
  | subscribeTopic (topicName : String)
  | publishTopic (topicName : String) (message : String)
  | listTopics
  | getTopicStatus (topicName : String)
  deriving DecidableEq, Repr

/-- What a run of `main` that returns has done: its exit code, the arguments
`(port, serverAddress, serverPort)` of the `Client` it constructed (if any),
the calls made on that client in order, and whether it waited for the ENTER
key (`cin.get()`, line 176). -/
structure Run where
  exitCode : Int
  client : Option (Int × String × Int)
  calls : List ClientCall
  waited : Bool
  deriving DecidableEq, Repr

/-- The result of running `main`. -/
inductive Outcome where
  | returned (r : Run)
  | undefined (u : UB)
  | outOfFuel
  deriving DecidableEq, Repr

/-- Lines 174-182: the calls of the command have been made. -/
def finish (st : ParseState) (calls : List ClientCall) : Outcome :=
  .returned
    { exitCode := 0
      client := some (st.port, st.serverAddress, st.serverPort)
      calls := calls
      waited := st.hasSubscribeCommand }

/-- Lines 153-182: the client exists; dispatch on `command`. -/
def execute (st : ParseState) : Outcome :=
  if st.command = "--subscribe" then
    finish st (st.arguments.map ClientCall.subscribeTopic)
  else if st.command = "--publish" then
    match st.arguments.head?, st.arguments.getLast? with
    | some front, some back => finish st [ClientCall.publishTopic front back]
    | _, _ => .undefined .emptyList
  else if st.command = "--list-topics" then
    finish st [ClientCall.listTopics]
  else if st.command = "--get-topic-status" then
    finish st (st.arguments.map ClientCall.getTopicStatus)
  else
    .returned
      { exitCode := 1
        client := some (st.port, st.serverAddress, st.serverPort)
        calls := []
        waited := false }

/-- A `return code` before any `Client` exists. -/
def earlyReturn (code : Int) : Outcome :=
  .returned { exitCode := code, client := none, calls := [], waited := false }

/-- The function `main` on the argument vector `argv` (`argc` is its length).
`construct port serverAddress serverPort` says whether
`new Client(port, serverAddress, serverPort)` succeeds (`true`) or throws
`runtime_error` (`false`). -/
def main (construct : Int → String → Int → Bool) (argv : List String) : Outcome :=
  match forLoop argv argv.length initialState with
  | .ret code => earlyReturn code
  | .undefined u => .undefined u
  | .outOfFuel => .outOfFuel
  | .done st =>
    if construct st.port st.serverAddress st.serverPort then
      execute st
    else
      earlyReturn 1

/-- A constructor that always succeeds. -/
def connects : Int → String → Int → Bool := fun _ _ _ => true

/-- The locals at the start of pass number `n + 1` of the `for` loop, when
the first `n` passes were made and none of them returned: this is how
"the scan meets `argv[i]`" is expressed (`scanState argv n = some st` and
`st.i < argv.length`). -/
def scanState (argv : List String) : Nat → Option ParseState
  | 0 => some initialState
  | n + 1 =>
    match scanState argv n with
    | none => none
    | some st =>
      if st.i < argv.length then
        match loopBody argv st with
        | .next st2 => some { st2 with i := st2.i + 1 }
        | _ => none
      else
        none

/-! ## `ClientConnection::SendMessage` (clientconnection.h, lines 32-41) -/

/-- The class `ClientConnection` of the server: its three data members. -/
structure ClientConnection where
  address : String
  port : Int
  socket : Int
  deriving DecidableEq, Repr

/-- What `SendMessage` writes to the socket of the client: the message and
its timestamp, together with a status code. -/
structure SentMessage where
  statusCode : Int
  message : String
  timestamp : Int
  deriving DecidableEq, Repr

/-- The effect of one call of `SendMessage`: the value handed back to the
caller (`none` for a function declared `void`) and what was sent. -/
structure SendEffect where
  returned : Option Int
  sent : SentMessage
  deriving DecidableEq, Repr

/-- Modelled from the spec: the body of `ClientConnection::SendMessage` is
missing from the sources, only its declaration in `clientconnection.h` is
there.  The declaration fixes the result type, `void`, so nothing is handed
back to the caller; its documentation fixes the status code that is sent,
"always 0 (successful)"; the message and the timestamp are written to the
socket of the connection (section 4.3 of the specification). -/
def ClientConnection.SendMessage (_conn : ClientConnection) (message : String)
    (timestamp : Int) : SendEffect :=
  { returned := none
    sent := { statusCode := 0, message := message, timestamp := timestamp } }

/-! ## The broker's topics

The broker (topic registry, subscribe and publish) is not part of the sources;
this section follows sections 3, 4.1 to 4.4, 5, 7 and 8 of the
specification. -/

/-- Modelled from the spec: the broker's connection table is missing from the
sources.  A topic refers to a connection handle by an identifier (a
non-owning reference, sections 3 and 9). -/
abbrev ConnId := Nat

/-- Modelled from the spec: the type `Topic` is missing from the sources.
Section 3: a name, the subscribed connection handles, the last publish
timestamp, the last publish status code and the message count. -/
structure Topic where
  name : String
  subscribers : List ConnId
  lastTimestamp : Int
  lastStatus : Int
  messageCount : Nat
  deriving DecidableEq, Repr

/-- Modelled from the spec: topic creation is missing from the sources.
Section 3: a topic is created on first reference with an empty subscriber
set. -/
def Topic.empty (name : String) : Topic :=
  { name := name, subscribers := [], lastTimestamp := 0, lastStatus := 0, messageCount := 0 }

/-- Modelled from the spec: `Topic::addSubscriber` is missing from the
sources.  Section 4.2: adding an already-subscribed handle is a no-op. -/
def Topic.addSubscriber (t : Topic) (handle : ConnId) : Topic :=
  if handle ∈ t.subscribers then t else { t with subscribers := t.subscribers ++ [handle] }

/-- Modelled from the spec: `Topic::publish` is missing from the sources.
Sections 4.2 and 5: the payload is sent to every subscriber present when the
publish begins, each one attempted exactly once; the timestamp and an
aggregate status (success when every send succeeded) are recorded and the
message count goes up.  `send` is `ConnectionHandle.send`; it gives the
status code of one send (0 is success).  The result is the topic afterwards
and the list of sends made, each with its status. -/
def Topic.publish (send : ConnId → String → Int → Int) (t : Topic) (payload : String)
    (timestamp : Int) : Topic × List (ConnId × Int) :=
  let report := t.subscribers.map (fun handle => (handle, send handle payload timestamp))
  ({ t with
     lastTimestamp := timestamp
     lastStatus := if report.all (fun r => r.2 == 0) then 0 else 1
     messageCount := t.messageCount + 1 },
   report)

/-- Modelled from the spec: the type `TopicRegistry` is missing from the
sources.  Section 3: the mapping from topic name to topic, here the list of
its topics. -/
abbrev TopicRegistry := List Topic

/-- Modelled from the spec: the lookup of a topic by name (used by
`statusOf`, section 4.1) is missing from the sources. -/
def TopicRegistry.lookup : TopicRegistry → String → Option Topic
  | [], _ => none
  | t :: ts, name => if t.name = name then some t else TopicRegistry.lookup ts name

/-- Modelled from the spec: `TopicRegistry::getOrCreate` is missing from the
sources.  Section 4.1: it returns the existing topic or creates an empty one;
the caller then changes the topic it was given.  `update reg name f` is the
registry after `f` has been applied to `getOrCreate(name)`. -/
def TopicRegistry.update : TopicRegistry → String → (Topic → Topic) → TopicRegistry
  | [], name, f => [f (Topic.empty name)]
  | t :: ts, name, f =>
    if t.name = name then f t :: ts else t :: TopicRegistry.update ts name f

/-- The subscriber set of the topic `name` (empty when the topic does not
exist). -/
def TopicRegistry.subscribersOf (reg : TopicRegistry) (name : String) : List ConnId :=
  ((reg.lookup name).map Topic.subscribers).getD []

/-- Modelled from the spec: the broker's `subscribe` is missing from the
sources.  Section 4.4: for each name,
`TopicRegistry.getOrCreate(name).addSubscriber(handle)`. -/
def Broker.subscribe (reg : TopicRegistry) (handle : ConnId) (topicNames : List String) :
    TopicRegistry :=
  topicNames.foldl (fun r name => r.update name (fun t => t.addSubscriber handle)) reg

/-- Modelled from the spec: `Topic::removeSubscriber` is missing from the
sources.  Section 4.2: called when a subscriber disconnects or a send to it
fails; removing a handle that is not subscribed changes nothing. -/
def Topic.removeSubscriber (t : Topic) (handle : ConnId) : Topic :=
  { t with subscribers := t.subscribers.filter (fun h => h != handle) }

/-- Modelled from the spec: the broker's reaction to a closed or failed
connection is missing from the sources.  Sections 4.3 and 5: the handle is
removed from every topic it is subscribed to. -/
def Broker.disconnect (reg : TopicRegistry) (handle : ConnId) : TopicRegistry :=
  reg.map (fun t => t.removeSubscriber handle)

/-- The handles whose send failed (status code other than 0) in the report of
a publish. -/
def failedHandles (report : List (ConnId × Int)) : List ConnId :=
  (report.filter (fun r => r.2 != 0)).map (fun r => r.1)

/-- What a publish gives: the registry afterwards, the sends made with their
status codes, and the status acknowledged to the publishing client. -/
structure PublishResult where
  registry : TopicRegistry
  report : List (ConnId × Int)
  ack : Int
  deriving DecidableEq, Repr

/-- Modelled from the spec: the broker's `publish` is missing from the
sources.  Section 4.4: `TopicRegistry.getOrCreate(topicName).publish(payload)`,
then an acknowledgement to the publisher.  Sections 4.3, 5, 7 and 8: every
subscriber whose send failed is unsubscribed (removed from every topic), so
later publishes no longer reach it; the publish is acknowledged as
successful unless all subscribers failed. -/
def Broker.publish (send : ConnId → String → Int → Int) (reg : TopicRegistry)
    (topicName : String) (payload : String) (timestamp : Int) : PublishResult :=
  let t := (reg.lookup topicName).getD (Topic.empty topicName)
  let report := (t.publish send payload timestamp).2
  let published := reg.update topicName (fun t => (t.publish send payload timestamp).1)
  { registry := (failedHandles report).foldl Broker.disconnect published
    report := report
    ack := if report ≠ [] ∧ report.all (fun r => r.2 != 0) then 1 else 0 }

/-- The commands of clients that change the topics (section 4.4). -/
inductive BrokerCommand where
  | subscribe (handle : ConnId) (topicNames : List String)
  | publish (topicName : String) (payload : String) (timestamp : Int)
  deriving DecidableEq, Repr

/-- The registry after the broker has handled one command. -/
def Broker.apply (send : ConnId → String → Int → Int) (reg : TopicRegistry) :
    BrokerCommand → TopicRegistry
  | .subscribe handle topicNames => Broker.subscribe reg handle topicNames
  | .publish topicName payload timestamp =>
    (Broker.publish send reg topicName payload timestamp).registry

/-- The registry after the broker has handled a series of commands. -/
def Broker.run (send : ConnId → String → Int → Int) (reg : TopicRegistry)
    (commands : List BrokerCommand) : TopicRegistry :=
  commands.foldl (Broker.apply send) reg

/-- The number of sends to `handle` in the report of a publish, failed ones
included. -/
def attemptsTo (handle : ConnId) (report : List (ConnId × Int)) : Nat :=
  (report.filter (fun r => r.1 == handle)).length

/-- The number of deliveries to `handle` in the report of a publish: the
sends to it that succeeded (status code 0). -/
def deliveriesTo (handle : ConnId) (report : List (ConnId × Int)) : Nat :=
  (report.filter (fun r => r.1 == handle && r.2 == 0)).length

/-! ## Notions used to state the properties -/

/-- A string that is, in its entirety, a decimal numeral denoting an integer
in `0..65535`. -/
def isPortNumeral (s : String) : Bool :=
  !s.data.isEmpty && s.data.all Char.isDigit && decide (digitsVal s.data ≤ 65535)

/-- A non-empty run of decimal digits denoting a value in `0..255`. -/
def isOctetNumeral (f : List Char) : Bool :=
  !f.isEmpty && f.all Char.isDigit && decide (digitsVal f ≤ 255)

/-- The fields of a string between its `'.'` characters. -/
def splitDots : List Char → List (List Char)
  | [] => [[]]
  | c :: cs =>
    if c = '.' then
      [] :: splitDots cs
    else
      match splitDots cs with
      | [] => [[c]]
      | f :: fs => (c :: f) :: fs

/-- A dotted quad in the strict sense: exactly four non-empty runs of decimal
digits, each denoting a value in `0..255`, separated by single `'.'`
characters, and nothing else. -/
def isStrictDottedQuad (s : String) : Bool :=
  match splitDots s.data with
  | [a, b, c, d] => isOctetNumeral a && isOctetNumeral b && isOctetNumeral c && isOctetNumeral d
  | _ => false

/-- The text `f` starts, the way `std::stoi` reads it, with a numeral of value
`v`: optional white space, an optional sign (a `'-'` only with value 0), then
a non-empty run of decimal digits of value `v` that is not followed by
another digit; what comes after the run is arbitrary. -/
def StartsWithNumeral (f : List Char) (v : Nat) : Prop :=
  ∃ ws sg ds rest : List Char,
    f = ws ++ sg ++ ds ++ rest ∧
    (∀ c ∈ ws, isSpace c = true) ∧
    (sg = [] ∨ sg = ['+'] ∨ (sg = ['-'] ∧ v = 0)) ∧
    ds ≠ [] ∧
    (∀ c ∈ ds, c.isDigit = true) ∧
    (∀ c, rest.head? = some c → c.isDigit = false) ∧
    digitsVal ds = v

/-- A field of an address as `isValidIPv4Address` accepts it: no `'.'` in
it, and it starts (the way `std::stoi` reads) with a numeral of a value in
`0..255`. -/
def LenientOctet (f : List Char) : Prop :=
  '.' ∉ f ∧ ∃ v : Nat, v ≤ 255 ∧ StartsWithNumeral f v

/-- Fields joined by single `'.'` characters. -/
def joinDots : List (List Char) → List Char
  | [] => []
  | [f] => f
  | f :: g :: fs => f ++ '.' :: joinDots (g :: fs)

/-- The first argument of the list `argv[1], argv[2], ...` that a
left-to-right reading meets which is neither `--port`, `--server-address` or
`--server-port` together with the value following it, nor `--help`, nor
`--debug`; `none` when there is no such argument. -/
def firstCommandSpec : List String → Option String
  | [] => none
  | [a] => if a = "--help" ∨ a = "--debug" then none else some a
  | a :: v :: following =>
    if a = "--port" ∨ a = "--server-address" ∨ a = "--server-port" then
      firstCommandSpec following
    else if a = "--help" ∨ a = "--debug" then
      firstCommandSpec (v :: following)
    else
      some a

/-- The invariant of the scan about `--publish`.  While no command has been
met, `arguments` is empty and none of `argv[1], ..., argv[i - 1]` is
`--publish`; once the command is `--publish`, `arguments` holds the two
elements of `argv` after the first `--publish` of `argv[1..]`. -/
def PublishInv (argv : List String) (st : ParseState) : Prop :=
  1 ≤ st.i ∧
  (st.command = "" →
    st.arguments = [] ∧ ∀ j, 1 ≤ j → j < st.i → argv[j]? ≠ some "--publish") ∧
  (st.command = "--publish" →
    ∃ k t m, 1 ≤ k ∧ k + 2 < st.i ∧ argv[k]? = some "--publish" ∧
      (∀ j, 1 ≤ j → j < k → argv[j]? ≠ some "--publish") ∧
      argv[k + 1]? = some t ∧ argv[k + 2]? = some m ∧ st.arguments = [t, m])

/-- The invariant of the scan about `hasSubscribeCommand`: it is set only
when the command is `--subscribe` and a topic has been stored. -/
def SubscribeFlagInv (st : ParseState) : Prop :=
  st.hasSubscribeCommand = true → st.command = "--subscribe" ∧ st.arguments ≠ []

/-- The `--subscribe` topic loop accepts at least one topic name: some pass
of the scan meets `--subscribe` as the command (the first command, or the
command again) and the argument after it passes the test of the loop. -/
def AcceptedSubscribeTopic (argv : List String) : Prop :=
  ∃ n st t, scanState argv n = some st ∧ argv[st.i]? = some "--subscribe" ∧
    (st.command = "" ∨ st.command = "--subscribe") ∧
    argv[st.i + 1]? = some t ∧ topicCond t = .ok true

/-- The value that the last of the first `n` passes of the scan which met
`flag` in flag position (with an argument following it) found after the
flag; `none` when none of these passes met `flag`. -/
def lastValue (argv : List String) (flag : String) : Nat → Option String
  | 0 => none
  | n + 1 =>
    match scanState argv n with
    | some st =>
      if argv[st.i]? = some flag ∧ st.i + 1 < argv.length then
        argv[st.i + 1]?
      else
        lastValue argv flag n
    | none => lastValue argv flag n

/-- A port number: an integer in `0..65535`. -/
def IsPort (p : Int) : Prop := 0 ≤ p ∧ p ≤ 65535

/-- Some pass of the scan meets an argument in command position: the
argument is not `--help` or `--debug`, and not one of `--port`,
`--server-address`, `--server-port` with an argument following it, so the
pass enters the `else` block of lines 89-137. -/
def MetCommandPosition (argv : List String) : Prop :=
  ∃ n st arg, scanState argv n = some st ∧ argv[st.i]? = some arg ∧
    arg ≠ "--help" ∧ arg ≠ "--debug" ∧
    ¬ ((arg = "--port" ∨ arg = "--server-address" ∨ arg = "--server-port") ∧
        st.i + 1 < argv.length)

/-- The values `command` can have between two passes of the scan. -/
def IsCommandOrEmpty (command : String) : Prop :=
  command = "" ∨ command = "--subscribe" ∨ command = "--publish" ∨
    command = "--list-topics" ∨ command = "--get-topic-status"

/-- The string formed by the decimal numerals of `a`, `b`, `c`, `d` joined
with `'.'`. -/
def dottedQuad (a b c d : Nat) : String :=
  Nat.repr a ++ "." ++ Nat.repr b ++ "." ++ Nat.repr c ++ "." ++ Nat.repr d

/-- A field that is a non-empty run of decimal digits of value at most
255. -/
def PlainOctet (f : List Char) : Prop :=
  f ≠ [] ∧ (∀ c ∈ f, c.isDigit = true) ∧ digitsVal f ≤ 255

/-! ## Basic facts about the scan -/

theorem topicLoop_i_le (b : Bool) : ∀ (l : List String) (st st2 : ParseState),
    topicLoop b l st = .ok st2 → st.i ≤ st2.i := by
  intro l
  induction l with
  | nil =>
    intro st st2 h
    simp only [topicLoop, Except.ok.injEq] at h
    subst h
    exact Nat.le_refl _
  | cons a l ih =>
    intro st st2 h
    simp only [topicLoop] at h
    split at h
    · exact absurd h (by simp)
    · simp only [Except.ok.injEq] at h
      subst h
      exact Nat.le_refl _
    · have := ih _ _ h
      simp only at this
      omega

theorem setCommand_i (arg : String) (st : ParseState) : (setCommand arg st).i = st.i := by
  unfold setCommand; split <;> rfl

theorem setCommand_arguments (arg : String) (st : ParseState) :
    (setCommand arg st).arguments = st.arguments := by
  unfold setCommand; split <;> rfl

theorem setCommand_hasSubscribeCommand (arg : String) (st : ParseState) :
    (setCommand arg st).hasSubscribeCommand = st.hasSubscribeCommand := by
  unfold setCommand; split <;> rfl

theorem commandChain_i_le (argv : List String) (arg : String) (st st2 : ParseState)
    (h : commandChain argv arg st = .next st2) : st.i ≤ st2.i := by
  simp only [commandChain] at h
  repeat' split at h
  all_goals first
    | contradiction
    | (simp only [Step.next.injEq] at h
       subst h
       first
         | omega
         | (simp only; omega)
         | (rename_i h2
            have := topicLoop_i_le _ _ _ _ h2
            omega))

theorem commandBlock_i_le (argv : List String) (arg : String) (st st2 : ParseState)
    (h : commandBlock argv arg st = .next st2) : st.i ≤ st2.i := by
  have := commandChain_i_le _ _ _ _ h
  rw [setCommand_i] at this
  exact this

theorem loopBody_i_le (argv : List String) (st st2 : ParseState)
    (h : loopBody argv st = .next st2) : st.i ≤ st2.i := by
  simp only [loopBody] at h
  repeat' split at h
  all_goals first
    | contradiction
    | exact commandBlock_i_le _ _ _ _ h
    | (simp only [Step.next.injEq] at h
       subst h
       simp)

theorem forLoop_succ (argv : List String) (fuel : Nat) (st : ParseState) :
    forLoop argv (fuel + 1) st =
      if st.i < argv.length then
        match loopBody argv st with
        | .next st2 => forLoop argv fuel { st2 with i := st2.i + 1 }
        | .ret code => .ret code
        | .undefined u => .undefined u
      else
        .done st := rfl

theorem forLoop_at_end (argv : List String) (fuel : Nat) (st : ParseState)
    (h : argv.length ≤ st.i) : forLoop argv fuel st = .done st := by
  have hn : ¬ st.i < argv.length := by omega
  cases fuel <;> simp [forLoop, hn]

/-- The result of the loop does not depend on the fuel once there is enough
of it. -/
theorem forLoop_fuel_eq (argv : List String) : ∀ (f1 f2 : Nat) (st : ParseState),
    argv.length ≤ st.i + f1 → argv.length ≤ st.i + f2 →
    forLoop argv f1 st = forLoop argv f2 st := by
  intro f1
  induction f1 with
  | zero =>
    intro f2 st h1 _
    have hn : ¬ st.i < argv.length := by omega
    cases f2 <;> simp [forLoop, hn]
  | succ f1 ih =>
    intro f2 st h1 h2
    cases f2 with
    | zero =>
      have hn : ¬ st.i < argv.length := by omega
      simp [forLoop, hn]
    | succ f2 =>
      simp only [forLoop]
      split
      · cases hb : loopBody argv st with
        | next st2 =>
          have := loopBody_i_le _ _ _ hb
          simp only
          apply ih
          · simp only; omega
          · simp only; omega
        | ret code => rfl
        | undefined u => rfl
      · rfl

/-- With `argc - i` passes allowed the loop never runs out of fuel. -/
theorem forLoop_fuel (argv : List String) : ∀ (fuel : Nat) (st : ParseState),
    argv.length ≤ st.i + fuel → forLoop argv fuel st ≠ .outOfFuel := by
  intro fuel
  induction fuel with
  | zero =>
    intro st h
    have hn : ¬ st.i < argv.length := by omega
    simp [forLoop, hn]
  | succ fuel ih =>
    intro st h
    simp only [forLoop]
    split
    · cases hb : loopBody argv st with
      | next st2 =>
        have := loopBody_i_le _ _ _ hb
        simp only
        apply ih
        simp only; omega
      | ret code => simp
      | undefined u => simp
    · simp

/-- The function `main` always produces a result. -/
theorem main_ne_outOfFuel (construct : Int → String → Int → Bool) (argv : List String) :
    main construct argv ≠ .outOfFuel := by
  have h := forLoop_fuel argv argv.length initialState (by omega)
  simp only [main]
  split
  · simp [earlyReturn]
  · simp
  · rename_i h2; exact absurd h2 h
  · split
    · simp only [execute, finish]
      repeat' split
      all_goals simp
    · simp [earlyReturn]

theorem scanState_i_pos (argv : List String) : ∀ (n : Nat) (st : ParseState),
    scanState argv n = some st → 1 ≤ st.i := by
  intro n
  induction n with
  | zero =>
    intro st h
    simp only [scanState, Option.some.injEq] at h
    subst h
    simp [initialState]
  | succ n ih =>
    intro st h
    simp only [scanState] at h
    split at h
    · exact absurd h (by simp)
    · split at h
      · split at h
        · simp only [Option.some.injEq] at h
          subst h
          simp
        · exact absurd h (by simp)
      · exact absurd h (by simp)

/-- From a state the scan reaches, the rest of the loop decides the result
of the whole loop. -/
theorem forLoop_of_scanState (argv : List String) : ∀ (n : Nat) (st : ParseState),
    scanState argv n = some st →
    forLoop argv argv.length initialState = forLoop argv (argv.length - st.i) st := by
  intro n
  induction n with
  | zero =>
    intro st h
    simp only [scanState, Option.some.injEq] at h
    subst h
    apply forLoop_fuel_eq <;> omega
  | succ n ih =>
    intro st h
    simp only [scanState] at h
    split at h
    · exact absurd h (by simp)
    · rename_i st1 h1
      split at h
      · rename_i hlt
        split at h
        · rename_i st2 hb
          simp only [Option.some.injEq] at h
          subst h
          rw [ih st1 h1]
          have hle := loopBody_i_le _ _ _ hb
          obtain ⟨k, hk⟩ : ∃ k, argv.length - st1.i = k + 1 := ⟨argv.length - st1.i - 1, by omega⟩
          rw [hk]
          simp only [forLoop, hlt, if_true, hb]
          apply forLoop_fuel_eq <;> simp only <;> omega
        · exact absurd h (by simp)
      · exact absurd h (by simp)

/-- When the scan reaches a pass whose body returns `code`, `main` returns
`code` before a client exists. -/
theorem main_of_scanState_ret (construct : Int → String → Int → Bool) (argv : List String)
    (n : Nat) (st : ParseState) (code : Int)
    (h : scanState argv n = some st) (hlt : st.i < argv.length)
    (hb : loopBody argv st = .ret code) : main construct argv = earlyReturn code := by
  obtain ⟨k, hk⟩ : ∃ k, argv.length - st.i = k + 1 := ⟨argv.length - st.i - 1, by omega⟩
  simp only [main, forLoop_of_scanState argv n st h, hk, forLoop, hlt, if_true, hb]

/-- Membership of an index in `argv`. -/
theorem lt_length_of_getElem? {argv : List String} {k : Nat} {a : String}
    (h : argv[k]? = some a) : k < argv.length := by
  rcases Nat.lt_or_ge k argv.length with hlt | hge
  · exact hlt
  · rw [List.getElem?_eq_none hge] at h
    exact absurd h (by simp)

/-- What a topic loop does: it appends a run `ts` of leading arguments that
pass the loop condition, advances `i` past them, and (in the `--subscribe`
loop) sets `hasSubscribeCommand` when the run is not empty.  The loop stops
at the end of `argv` or at an argument that fails the condition. -/
theorem topicLoop_ok (b : Bool) : ∀ (l : List String) (st st2 : ParseState),
    topicLoop b l st = .ok st2 →
    ∃ ts rest : List String, l = ts ++ rest ∧
      (∀ t ∈ ts, topicCond t = .ok true) ∧
      (∀ a, rest.head? = some a → topicCond a = .ok false) ∧
      st2 = { st with
              arguments := st.arguments ++ ts
              i := st.i + ts.length
              hasSubscribeCommand := st.hasSubscribeCommand || (b && !ts.isEmpty) } := by
  intro l
  induction l with
  | nil =>
    intro st st2 h
    simp only [topicLoop, Except.ok.injEq] at h
    subst h
    exact ⟨[], [], rfl, by simp, by simp, by simp⟩
  | cons a l ih =>
    intro st st2 h
    simp only [topicLoop] at h
    split at h
    · contradiction
    · rename_i hc
      simp only [Except.ok.injEq] at h
      subst h
      refine ⟨[], a :: l, rfl, by simp, ?_, by simp⟩
      intro x hx
      simp only [List.head?_cons, Option.some.injEq] at hx
      subst hx
      exact hc
    · rename_i hc
      obtain ⟨ts, rest, hl, hts, hrest, hst⟩ := ih _ _ h
      refine ⟨a :: ts, rest, by simp [hl], ?_, hrest, ?_⟩
      · intro t ht
        rcases List.mem_cons.1 ht with ht | ht
        · rw [ht]; exact hc
        · exact hts t ht
      · rw [hst]
        cases b <;> simp [Nat.add_assoc, Nat.add_comm 1]

/-- The passes of the `if` chain of the commands that fall through to the
loop increment. -/
theorem commandChain_next (argv : List String) (arg : String) (st st2 : ParseState)
    (h : commandChain argv arg st = .next st2) :
    (arg = "--subscribe" ∧ st.command = "--subscribe" ∧ st.i + 1 < argv.length ∧
      topicLoop true (argv.drop (st.i + 1)) st = .ok st2) ∨
    (arg = "--publish" ∧ st.arguments = [] ∧ ∃ t m, argv[st.i + 1]? = some t ∧
      argv[st.i + 2]? = some m ∧ st2 = { st with arguments := [t, m], i := st.i + 2 }) ∨
    (arg = "--list-topics" ∧ st.command = "--list-topics" ∧ st2 = st) ∨
    (arg = "--get-topic-status" ∧ st.command = "--get-topic-status" ∧
      st.i + 1 < argv.length ∧ topicLoop false (argv.drop (st.i + 1)) st = .ok st2) := by
  simp only [commandChain] at h
  split at h
  · rename_i hc
    obtain ⟨h1, h2, h3⟩ := hc
    left
    refine ⟨h1, by rw [← h2, h1], h3, ?_⟩
    split at h
    · rename_i heq
      simp only [Step.next.injEq] at h
      rw [← h]; exact heq
    · contradiction
  · split at h
    · rename_i hc
      obtain ⟨h1, h2, h3⟩ := hc
      right; left
      have h2 : st.arguments = [] := List.length_eq_zero.1 h2
      refine ⟨h1, h2, ?_⟩
      split at h
      · rename_i t m ht hm
        simp only [Step.next.injEq] at h
        exact ⟨t, m, ht, hm, by rw [← h, h2]; rfl⟩
      · contradiction
    · split at h
      · rename_i hc
        obtain ⟨h1, h2⟩ := hc
        simp only [Step.next.injEq] at h
        right; right; left
        exact ⟨h1, by rw [← h2, h1], h.symm⟩
      · split at h
        · rename_i hc
          obtain ⟨h1, h2, h3⟩ := hc
          right; right; right
          refine ⟨h1, by rw [← h2, h1], h3, ?_⟩
          split at h
          · rename_i heq
            simp only [Step.next.injEq] at h
            rw [← h]; exact heq
          · contradiction
        · contradiction

/-- The passes of the loop body that fall through to the loop increment:
an option with a valid value, `--debug`, or a pass through the commands. -/
theorem loopBody_next (argv : List String) (st st2 : ParseState)
    (h : loopBody argv st = .next st2) :
    ∃ arg, argv[st.i]? = some arg ∧
      ((∃ v, arg = "--port" ∧ argv[st.i + 1]? = some v ∧ getPortNumber v ≠ -1 ∧
          st2 = { st with port := getPortNumber v, i := st.i + 1 }) ∨
       (∃ v, arg = "--server-address" ∧ argv[st.i + 1]? = some v ∧
          isValidIPv4Address v = .ok true ∧
          st2 = { st with serverAddress := v, i := st.i + 1 }) ∨
       (∃ v, arg = "--server-port" ∧ argv[st.i + 1]? = some v ∧ getPortNumber v ≠ -1 ∧
          st2 = { st with serverPort := getPortNumber v, i := st.i + 1 }) ∨
       (arg = "--debug" ∧ st2 = { st with debug := true }) ∨
       (arg ≠ "--help" ∧ arg ≠ "--debug" ∧
          commandChain argv arg (setCommand arg st) = .next st2)) := by
  simp only [loopBody] at h
  split at h
  · contradiction
  · rename_i arg harg
    refine ⟨arg, harg, ?_⟩
    split at h
    · rename_i hc
      split at h
      · contradiction
      · rename_i v hv
        split at h
        · contradiction
        · rename_i hp
          simp only [Step.next.injEq] at h
          left
          exact ⟨v, hc.1, hv, hp, h.symm⟩
    · split at h
      · rename_i hc
        split at h
        · contradiction
        · rename_i v hv
          split at h
          · contradiction
          · contradiction
          · rename_i hok
            simp only [Step.next.injEq] at h
            right; left
            exact ⟨v, hc.1, hv, hok, h.symm⟩
      · split at h
        · rename_i hc
          split at h
          · contradiction
          · rename_i v hv
            split at h
            · contradiction
            · rename_i hp
              simp only [Step.next.injEq] at h
              right; right; left
              exact ⟨v, hc.1, hv, hp, h.symm⟩
        · split at h
          · contradiction
          · rename_i hhelp
            split at h
            · rename_i hd
              simp only [Step.next.injEq] at h
              right; right; right; left
              exact ⟨hd, h.symm⟩
            · rename_i hd
              right; right; right; right
              exact ⟨hhelp, hd, h⟩

/-- A property that holds at the start of the scan and is kept by every pass
holds in every state the scan reaches. -/
theorem scanState_induction (argv : List String) (P : ParseState → Prop)
    (h0 : P initialState)
    (hstep : ∀ st st2, P st → st.i < argv.length → loopBody argv st = .next st2 →
      P { st2 with i := st2.i + 1 }) :
    ∀ (n : Nat) (st : ParseState), scanState argv n = some st → P st := by
  intro n
  induction n with
  | zero =>
    intro st h
    simp only [scanState, Option.some.injEq] at h
    subst h
    exact h0
  | succ n ih =>
    intro st h
    simp only [scanState] at h
    split at h
    · contradiction
    · rename_i st1 h1
      split at h
      · rename_i hlt
        split at h
        · rename_i st2 hb
          simp only [Option.some.injEq] at h
          subst h
          exact hstep st1 st2 (ih st1 h1) hlt hb
        · contradiction
      · contradiction

/-- The state in which the loop ends is one the scan reaches, with
`i >= argc`. -/
theorem forLoop_done_reached (argv : List String) : ∀ (fuel n0 : Nat) (st0 st : ParseState),
    scanState argv n0 = some st0 → forLoop argv fuel st0 = .done st →
    ∃ n, scanState argv n = some st ∧ argv.length ≤ st.i := by
  intro fuel
  induction fuel with
  | zero =>
    intro n0 st0 st h0 h
    simp only [forLoop] at h
    split at h
    · contradiction
    · simp only [Scan.done.injEq] at h
      subst h
      exact ⟨n0, h0, by omega⟩
  | succ fuel ih =>
    intro n0 st0 st h0 h
    simp only [forLoop] at h
    split at h
    · rename_i hlt
      split at h
      · rename_i st2 hb
        apply ih (n0 + 1) _ st _ h
        simp only [scanState, h0, hlt, if_true, hb]
      · contradiction
      · contradiction
    · simp only [Scan.done.injEq] at h
      subst h
      exact ⟨n0, h0, by omega⟩

/-- A property kept by every pass holds when the parse completes. -/
theorem parse_done_induction (argv : List String) (P : ParseState → Prop)
    (h0 : P initialState)
    (hstep : ∀ st st2, P st → st.i < argv.length → loopBody argv st = .next st2 →
      P { st2 with i := st2.i + 1 })
    (st : ParseState) (h : forLoop argv argv.length initialState = .done st) :
    P st ∧ argv.length ≤ st.i := by
  obtain ⟨n, hn, hle⟩ := forLoop_done_reached argv argv.length 0 initialState st rfl h
  exact ⟨scanState_induction argv P h0 hstep n st hn, hle⟩

/-! ## Early returns of the scan -/

/-- Claim C8: when the scan meets, in flag position, `--port v` or
`--server-port v` with `getPortNumber v = -1`, or `--server-address v` with
`isValidIPv4Address v = false`, `main` returns exit code 1, no `Client` is
constructed and no command is executed. -/
theorem C8_validation_error_returns_one (construct : Int → String → Int → Bool)
    (argv : List String) (n : Nat) (st : ParseState) (v : String)
    (hscan : scanState argv n = some st)
    (hval : argv[st.i + 1]? = some v)
    (hflag : (argv[st.i]? = some "--port" ∧ getPortNumber v = -1) ∨
      (argv[st.i]? = some "--server-port" ∧ getPortNumber v = -1) ∨
      (argv[st.i]? = some "--server-address" ∧ isValidIPv4Address v = .ok false)) :
    main construct argv =
      .returned { exitCode := 1, client := none, calls := [], waited := false } := by
  have hlt1 : st.i + 1 < argv.length := by
    rcases Nat.lt_or_ge (st.i + 1) argv.length with h | h
    · exact h
    · rw [List.getElem?_eq_none h] at hval
      exact absurd hval (by simp)
  have hlt : st.i < argv.length := by omega
  apply main_of_scanState_ret construct argv n st 1 hscan hlt
  rcases hflag with ⟨ha, hp⟩ | ⟨ha, hp⟩ | ⟨ha, hp⟩
  · simp [loopBody, ha, hval, hp, hlt1]
  · simp [loopBody, ha, hval, hp, hlt1]
  · simp [loopBody, ha, hval, hp, hlt1]

theorem C8_validation_error_returns_one_witness :
    (scanState ["client", "--debug", "--server-port", "65536", "--list-topics"] 1 =
        some { initialState with i := 2, debug := true } ∧
      getPortNumber "65536" = -1) ∧
    main connects ["client", "--debug", "--server-port", "65536", "--list-topics"] =
      .returned { exitCode := 1, client := none, calls := [], waited := false } :=
  ⟨by decide,
    C8_validation_error_returns_one connects
      ["client", "--debug", "--server-port", "65536", "--list-topics"] 1
      { initialState with i := 2, debug := true } "65536"
      (by decide) (by decide) (Or.inr (Or.inl ⟨by decide, by decide⟩))⟩

/-- Claim C10: when the scan meets `--help` in flag position (no earlier
argument having caused a return), `main` returns exit code 0, no `Client` is
constructed and no command is executed, whatever follows `--help`. -/
theorem C10_help_returns_zero (construct : Int → String → Int → Bool)
    (argv : List String) (n : Nat) (st : ParseState)
    (hscan : scanState argv n = some st)
    (harg : argv[st.i]? = some "--help") :
    main construct argv =
      .returned { exitCode := 0, client := none, calls := [], waited := false } := by
  have hlt : st.i < argv.length := by
    rcases Nat.lt_or_ge st.i argv.length with h | h
    · exact h
    · rw [List.getElem?_eq_none h] at harg
      exact absurd harg (by simp)
  apply main_of_scanState_ret construct argv n st 0 hscan hlt
  simp [loopBody, harg]

theorem C10_help_returns_zero_witness :
    scanState ["client", "--port", "81", "--help", "--port", "x", "--publish"] 1 =
      some { initialState with i := 3, port := 81 } ∧
    main connects ["client", "--port", "81", "--help", "--port", "x", "--publish"] =
      .returned { exitCode := 0, client := none, calls := [], waited := false } :=
  ⟨by decide,
    C10_help_returns_zero connects
      ["client", "--port", "81", "--help", "--port", "x", "--publish"] 1
      { initialState with i := 3, port := 81 } (by decide) (by decide)⟩

/-- Claim C9, as the code has it: when the scan meets an argument that is not
one of the nine known flags and commands, or meets `--port`,
`--server-address`, `--server-port`, `--subscribe` or `--get-topic-status`
as the last argument (no argument follows it), or meets `--publish` with
fewer than two arguments following it, `main` returns exit code 1, no
`Client` is constructed and no command is executed. -/
theorem C9_unknown_or_missing_returns_one (construct : Int → String → Int → Bool)
    (argv : List String) (n : Nat) (st : ParseState) (arg : String)
    (hscan : scanState argv n = some st)
    (harg : argv[st.i]? = some arg)
    (hbad : arg ∉ ["--port", "--server-address", "--server-port", "--help", "--debug",
        "--subscribe", "--publish", "--list-topics", "--get-topic-status"] ∨
      (arg ∈ ["--port", "--server-address", "--server-port", "--subscribe",
        "--get-topic-status"] ∧ argv.length = st.i + 1) ∨
      (arg = "--publish" ∧ argv.length ≤ st.i + 2)) :
    main construct argv =
      .returned { exitCode := 1, client := none, calls := [], waited := false } := by
  have hlt : st.i < argv.length := by
    rcases Nat.lt_or_ge st.i argv.length with h | h
    · exact h
    · rw [List.getElem?_eq_none h] at harg
      exact absurd harg (by simp)
  apply main_of_scanState_ret construct argv n st 1 hscan hlt
  rcases hbad with h | ⟨h, hlen⟩ | ⟨h, hlen⟩
  · simp only [List.mem_cons, List.mem_singleton, List.not_mem_nil, or_false, not_or] at h
    obtain ⟨h1, h2, h3, h4, h5, h6, h7, h8, h9⟩ := h
    simp [loopBody, harg, h1, h2, h3, h4, h5, commandBlock, commandChain, h6, h7, h8, h9]
  · have hn : ¬ argv.length > st.i + 1 := by omega
    simp only [List.mem_cons, List.mem_singleton, List.not_mem_nil, or_false] at h
    rcases h with h | h | h | h | h <;> subst h <;>
      simp [loopBody, harg, hn, commandBlock, commandChain, setCommand_i]
  · have hn : ¬ argv.length > st.i + 2 := by omega
    subst h
    simp [loopBody, harg, hn, commandBlock, commandChain, setCommand_i]

theorem C9_unknown_or_missing_returns_one_witness :
    scanState ["client", "--debug", "--publish", "topic"] 1 =
      some { initialState with i := 2, debug := true } ∧
    main connects ["client", "--debug", "--publish", "topic"] =
      .returned { exitCode := 1, client := none, calls := [], waited := false } :=
  ⟨by decide,
    C9_unknown_or_missing_returns_one connects ["client", "--debug", "--publish", "topic"] 1
      { initialState with i := 2, debug := true } "--publish"
      (by decide) (by decide) (Or.inr (Or.inr ⟨rfl, by decide⟩))⟩

/-- Claim C9 fails as stated: in `client --get-topic-status --debug` the scan
meets `--get-topic-status` (first pass, `argv[1]`), no topic name follows it
(the topic loop refuses `--debug`), and yet `main` returns exit code 0 after
constructing a `Client`. -/
theorem C9_counterexample :
    scanState ["client", "--get-topic-status", "--debug"] 0 = some initialState ∧
    ["client", "--get-topic-status", "--debug"][initialState.i]? = some "--get-topic-status" ∧
    topicCond "--debug" = .ok false ∧
    main connects ["client", "--get-topic-status", "--debug"] =
      .returned { exitCode := 0, client := some (0, "127.0.0.1", 8080), calls := [],
                  waited := false } := by
  decide

/-! ## One kind of command per client -/

/-- Claim C3 fails on the code: in `client --list-topics --publish t m` the
first pass fixes the command `--list-topics`, the second pass meets the
different command `--publish` in command position, and `main` nevertheless
constructs a `Client`, executes `listTopics` and returns exit code 0.  The
`--publish` branch (line 109) lacks the test `arg == command` of its three
sibling branches. -/
theorem C3_second_command_publish_accepted :
    (scanState ["client", "--list-topics", "--publish", "t", "m"] 1).map
        (fun st => (st.i, st.command)) = some (2, "--list-topics") ∧
    ["client", "--list-topics", "--publish", "t", "m"][2]? = some "--publish" ∧
    main connects ["client", "--list-topics", "--publish", "t", "m"] =
      .returned { exitCode := 0, client := some (0, "127.0.0.1", 8080),
                  calls := [ClientCall.listTopics], waited := false } := by
  decide

/-- The three sibling branches do reject a second, different command: when
the command is fixed and the scan meets a different one of `--subscribe`,
`--list-topics`, `--get-topic-status`, `main` returns 1 and executes no
command. -/
theorem second_command_rejected (construct : Int → String → Int → Bool)
    (argv : List String) (n : Nat) (st : ParseState) (arg : String)
    (hscan : scanState argv n = some st)
    (harg : argv[st.i]? = some arg)
    (hcmd : st.command ≠ "") (hdiff : arg ≠ st.command)
    (hthree : arg = "--subscribe" ∨ arg = "--list-topics" ∨ arg = "--get-topic-status") :
    main construct argv =
      .returned { exitCode := 1, client := none, calls := [], waited := false } := by
  have hlt := lt_length_of_getElem? harg
  apply main_of_scanState_ret construct argv n st 1 hscan hlt
  have hset : setCommand arg st = st := by simp [setCommand, hcmd]
  rcases hthree with h | h | h <;> subst h <;>
    simp [loopBody, harg, commandBlock, commandChain, hset, hdiff]

/-- Claim C6 fails on the code: `a-b` is a non-empty topic name that does not
begin with `--`, yet `client --subscribe a-b` returns exit code 1 without
constructing a `Client` or subscribing to anything.  The loop condition of
line 98 stops at every argument whose first or second character is `-`
(`&&` where "does not begin with `--`" needs `||`). -/
theorem C6_topic_with_dash_rejected :
    topicCond "a-b" = .ok false ∧
    main connects ["client", "--subscribe", "a-b"] =
      .returned { exitCode := 1, client := none, calls := [], waited := false } := by
  decide

/-! ## `std::stoi`, `getPortNumber` and `isValidIPv4Address` -/

theorem stripSign_spec (cs : List Char) :
    (cs = (stripSign cs).2 ∧ (stripSign cs).1 = false) ∨
    (cs = '+' :: (stripSign cs).2 ∧ (stripSign cs).1 = false) ∨
    (cs = '-' :: (stripSign cs).2 ∧ (stripSign cs).1 = true) := by
  cases cs with
  | nil => left; simp [stripSign]
  | cons c rest =>
    simp only [stripSign]
    split
    · right; right; simp [*]
    · split
      · right; left; simp [*]
      · left; simp

/-- A successful `stoi` with a non-negative result has read a numeral of
that value at the start of the text. -/
theorem stoi_ok_startsWithNumeral (s : String) (v : Int) (h : stoi s = .ok v) (hv : 0 ≤ v) :
    StartsWithNumeral s.data v.toNat := by
  simp only [stoi] at h
  split at h
  · contradiction
  · rename_i hds
    split at h
    · contradiction
    · simp only [Except.ok.injEq] at h
      refine ⟨s.data.takeWhile isSpace,
        if (stripSign (s.data.dropWhile isSpace)).1 then ['-']
        else if s.data.dropWhile isSpace = (stripSign (s.data.dropWhile isSpace)).2 then []
        else ['+'],
        (stripSign (s.data.dropWhile isSpace)).2.takeWhile Char.isDigit,
        (stripSign (s.data.dropWhile isSpace)).2.dropWhile Char.isDigit, ?_, ?_, ?_, hds, ?_, ?_, ?_⟩
      · have h1 : s.data = s.data.takeWhile isSpace ++ s.data.dropWhile isSpace :=
          (List.takeWhile_append_dropWhile isSpace s.data).symm
        have h2 : s.data.dropWhile isSpace =
            (if (stripSign (s.data.dropWhile isSpace)).1 then ['-']
              else if s.data.dropWhile isSpace = (stripSign (s.data.dropWhile isSpace)).2 then []
              else ['+']) ++ (stripSign (s.data.dropWhile isSpace)).2 := by
          rcases stripSign_spec (s.data.dropWhile isSpace) with ⟨e, b⟩ | ⟨e, b⟩ | ⟨e, b⟩
          · simp [b, ← e]
          · have hne : ¬ (s.data.dropWhile isSpace = (stripSign (s.data.dropWhile isSpace)).2) := by
              intro hh
              have := congrArg List.length hh
              rw [e] at this
              simp at this
              rw [← e] at this
              omega
            simp only [b, hne, if_false, Bool.false_eq_true]
            exact e
          · simp only [b, if_true]
            exact e
        rw [List.append_assoc, List.append_assoc, List.takeWhile_append_dropWhile, ← h2]
        exact h1
      · intro c hc
        exact List.mem_takeWhile_imp hc
      · rcases stripSign_spec (s.data.dropWhile isSpace) with ⟨e, b⟩ | ⟨e, b⟩ | ⟨e, b⟩
        · left; simp [b, ← e]
        · right; left
          have hne : ¬ (s.data.dropWhile isSpace = (stripSign (s.data.dropWhile isSpace)).2) := by
            intro hh
            have := congrArg List.length hh
            rw [e] at this
            simp at this
            rw [← e] at this
            omega
          simp [b, hne]
        · right; right
          simp only [b, if_true, true_and]
          simp only [b, signedVal, if_true] at h
          omega
      · intro c hc
        exact List.mem_takeWhile_imp hc
      · intro c hc
        have := List.head?_dropWhile_not Char.isDigit (stripSign (s.data.dropWhile isSpace)).2
        rw [hc] at this
        exact this
      · simp only [signedVal] at h
        split at h <;> omega

/-- Claim C2 fails as stated: `getPortNumber` accepts `80abc` (trailing text)
and ` 80` (leading white space) as port 80, although neither string is, in
its entirety, a decimal numeral. -/
theorem C2_counterexample :
    getPortNumber "80abc" = 80 ∧ isPortNumeral "80abc" = false ∧
    getPortNumber " 80" = 80 ∧ isPortNumeral " 80" = false := by
  decide

theorem isDigit_not_space (c : Char) (h : c.isDigit = true) :
    isSpace c = false ∧ c ≠ '-' ∧ c ≠ '+' ∧ c ≠ '.' := by
  refine ⟨?_, ?_, ?_, ?_⟩
  · cases hs : isSpace c with
    | false => rfl
    | true =>
      simp only [isSpace, Bool.or_eq_true, decide_eq_true_eq] at hs
      rcases hs with ((((hs | hs) | hs) | hs) | hs) | hs <;> subst hs <;>
        exact absurd h (by decide)
  · rintro rfl; exact absurd h (by decide)
  · rintro rfl; exact absurd h (by decide)
  · rintro rfl; exact absurd h (by decide)

theorem dropWhile_append_of_all (p : Char → Bool) (x : List Char) : ∀ (ws : List Char),
    (∀ c ∈ ws, p c = true) → (ws ++ x).dropWhile p = x.dropWhile p := by
  intro ws
  induction ws with
  | nil => intro _; rfl
  | cons c cs ih =>
    intro h
    rw [List.cons_append, List.dropWhile_cons, h c (by simp)]
    exact ih (fun d hd => h d (by simp [hd]))

theorem takeWhile_append_of_all (p : Char → Bool) (rest : List Char)
    (hrest : ∀ c, rest.head? = some c → p c = false) : ∀ (ds : List Char),
    (∀ c ∈ ds, p c = true) → (ds ++ rest).takeWhile p = ds := by
  intro ds
  induction ds with
  | nil =>
    intro _
    cases rest with
    | nil => rfl
    | cons r rs =>
      rw [List.nil_append, List.takeWhile_cons, hrest r rfl]
      rfl
  | cons c cs ih =>
    intro h
    rw [List.cons_append, List.takeWhile_cons, h c (by simp),
      ih (fun d hd => h d (by simp [hd]))]
    rfl

/-- Conversely to `stoi_ok_startsWithNumeral`: on a text that starts with a
numeral of value `v` that fits an `int`, `stoi` returns `v`. -/
theorem stoi_of_startsWithNumeral (s : String) (v : Nat) (h : StartsWithNumeral s.data v)
    (hfit : v ≤ 2147483647) : stoi s = .ok (v : Int) := by
  obtain ⟨ws, sg, ds, rest, hdata, hws, hsg, hne, hdig, hrest, hval⟩ := h
  cases ds with
  | nil => exact absurd rfl hne
  | cons d ds2 =>
    obtain ⟨hd1, hd2, hd3, _⟩ := isDigit_not_space d (hdig d (by simp))
    have htake : ((d :: ds2) ++ rest).takeWhile Char.isDigit = d :: ds2 :=
      takeWhile_append_of_all Char.isDigit rest hrest (d :: ds2) hdig
    have hrange : ¬ (((v : Nat) : Int) < -2147483648 ∨ ((v : Nat) : Int) > 2147483647) := by
      omega
    have hdrop : s.data.dropWhile isSpace = (sg ++ (d :: ds2) ++ rest).dropWhile isSpace := by
      rw [hdata, List.append_assoc, List.append_assoc,
        dropWhile_append_of_all isSpace _ ws hws, List.append_assoc]
    rcases hsg with hsg | hsg | ⟨hsg, hv0⟩
    · subst hsg
      have hx : s.data.dropWhile isSpace = d :: (ds2 ++ rest) := by
        rw [hdrop]
        simp [List.dropWhile_cons, hd1]
      have hsign : stripSign (d :: (ds2 ++ rest)) = (false, (d :: ds2) ++ rest) := by
        simp [stripSign, hd2, hd3]
      simp only [stoi, hx, hsign, htake]
      rw [if_neg (by simp)]
      simp only [signedVal, Bool.false_eq_true, if_false, hval]
      rw [if_neg hrange]
    · subst hsg
      have hx : s.data.dropWhile isSpace = '+' :: ((d :: ds2) ++ rest) := by
        rw [hdrop]
        have : isSpace '+' = false := by decide
        simp [List.dropWhile_cons, this]
      have hsign : stripSign ('+' :: ((d :: ds2) ++ rest)) = (false, (d :: ds2) ++ rest) := by
        simp [stripSign]
      simp only [stoi, hx, hsign, htake]
      rw [if_neg (by simp)]
      simp only [signedVal, Bool.false_eq_true, if_false, hval]
      rw [if_neg hrange]
    · subst hsg
      have hx : s.data.dropWhile isSpace = '-' :: ((d :: ds2) ++ rest) := by
        rw [hdrop]
        have : isSpace '-' = false := by decide
        simp [List.dropWhile_cons, this]
      have hsign : stripSign ('-' :: ((d :: ds2) ++ rest)) = (true, (d :: ds2) ++ rest) := by
        simp [stripSign]
      simp only [stoi, hx, hsign, htake]
      rw [if_neg (by simp)]
      simp only [signedVal, if_true, hval]
      subst hv0
      simp

/-- Claim C2, as the code has it: `getPortNumber s` is `-1` unless `s` starts,
the way `std::stoi` reads it (after optional white space and an optional
sign), with a decimal numeral denoting an integer in `0..65535`; and whenever
`s` starts with such a numeral, the result is that integer, whatever follows
the numeral. -/
theorem C2_getPortNumber_reads_leading_numeral (s : String) :
    (getPortNumber s ≠ -1 →
      ∃ v : Nat, v ≤ 65535 ∧ StartsWithNumeral s.data v ∧ getPortNumber s = (v : Int)) ∧
    (∀ v : Nat, v ≤ 65535 → StartsWithNumeral s.data v → getPortNumber s = (v : Int)) := by
  constructor
  · intro h
    simp only [getPortNumber] at h ⊢
    cases hs : stoi s with
    | error e => simp [hs] at h
    | ok port =>
      simp only [hs] at h ⊢
      by_cases hr : port > 65535 ∨ port < 0
      · simp [hr] at h
      · simp only [hr, if_false]
        have h0 : 0 ≤ port := by omega
        exact ⟨port.toNat, by omega, stoi_ok_startsWithNumeral s port hs h0, by omega⟩
  · intro v hv hstart
    have hs := stoi_of_startsWithNumeral s v hstart (by omega)
    simp only [getPortNumber, hs]
    have hr : ¬ ((v : Int) > 65535 ∨ (v : Int) < 0) := by omega
    rw [if_neg hr]

theorem C2_getPortNumber_reads_leading_numeral_witness :
    (getPortNumber " +80abc" ≠ -1 ∧ StartsWithNumeral " +80abc".data 80) ∧
    (∃ v : Nat, v ≤ 65535 ∧ StartsWithNumeral " +80abc".data v ∧
      getPortNumber " +80abc" = (v : Int)) ∧
    getPortNumber " +80abc" = 80 :=
  ⟨⟨by decide,
      ⟨[' '], ['+'], ['8', '0'], ['a', 'b', 'c'], by decide, by decide, by decide, by decide,
        by decide, by decide, by decide⟩⟩,
    (C2_getPortNumber_reads_leading_numeral " +80abc").1 (by decide),
    (C2_getPortNumber_reads_leading_numeral " +80abc").2 80 (by decide)
      ⟨[' '], ['+'], ['8', '0'], ['a', 'b', 'c'], by decide, by decide, by decide, by decide,
        by decide, by decide, by decide⟩⟩

theorem octetLoop_fields : ∀ (fuel : Nat) (ss : List Char) (n m : Nat),
    octetLoop fuel ss n = some (some m) → ss.getLast? ≠ some '.' →
    ∃ fs : List (List Char), m = n + fs.length ∧ ss = joinDots fs ∧ ∀ f ∈ fs, LenientOctet f := by
  intro fuel
  induction fuel with
  | zero =>
    intro ss n m h _
    simp [octetLoop] at h
  | succ fuel ih =>
    intro ss n m h hlast
    cases ss with
    | nil =>
      simp only [octetLoop, getline, Option.some.injEq] at h
      exact ⟨[], by simp [h], by simp [joinDots], by simp⟩
    | cons c cs =>
      simp only [octetLoop, getline] at h
      generalize hss : c :: cs = ss at h hlast
      cases hst : stoi (String.mk (ss.takeWhile (fun c => c != '.'))) with
      | error e => simp [hst] at h
      | ok value =>
        simp only [hst] at h
        by_cases hr : value < 0 ∨ value > 255
        · simp [hr] at h
        · simp only [hr, if_false] at h
          have hoct : LenientOctet (ss.takeWhile (fun c => c != '.')) := by
            refine ⟨?_, value.toNat, by omega, ?_⟩
            · intro hmem
              have := List.mem_takeWhile_imp hmem
              simp at this
            · exact stoi_ok_startsWithNumeral _ value hst (by omega)
          have hsplit : ss = ss.takeWhile (fun c => c != '.') ++ ss.dropWhile (fun c => c != '.') :=
            (List.takeWhile_append_dropWhile _ ss).symm
          cases hd : ss.dropWhile (fun c => c != '.') with
          | nil =>
            rw [hd] at h hsplit
            simp only [List.tail_nil] at h
            have hm : m = n + 1 := by
              cases fuel with
              | zero => simp [octetLoop] at h
              | succ k => simpa [octetLoop, getline] using h.symm
            refine ⟨[ss.takeWhile (fun c => c != '.')], by simp [hm], ?_, ?_⟩
            · simpa [joinDots] using hsplit
            · simpa using hoct
          | cons x rest =>
            rw [hd] at h hsplit
            simp only [List.tail_cons] at h
            have hx : x = '.' := by
              have := List.head?_dropWhile_not (fun c => c != '.') ss
              rw [hd] at this
              simpa using this
            subst hx
            have hrest : rest ≠ [] := by
              intro hnil
              apply hlast
              rw [hsplit, hnil]
              simp
            have hlast2 : rest.getLast? ≠ some '.' := by
              intro hl
              apply hlast
              rw [hsplit, List.getLast?_append, List.getLast?_cons]
              simp [hl]
            obtain ⟨fs, hm, hj, hall⟩ := ih rest (n + 1) m h hlast2
            cases fs with
            | nil => simp [joinDots] at hj; exact absurd hj hrest
            | cons g gs =>
              refine ⟨ss.takeWhile (fun c => c != '.') :: g :: gs, ?_, ?_, ?_⟩
              · simp only [List.length_cons] at hm ⊢
                omega
              · simp only [joinDots]
                rw [← hj]
                exact hsplit
              · intro f hf
                rcases List.mem_cons.1 hf with hf | hf
                · rw [hf]; exact hoct
                · exact hall f hf

/-- Claim C1 fails as stated: `isValidIPv4Address` accepts `1.2.3.4abc`
(trailing text) and ` 1.+2.3.4` (white space and a sign), neither of which is
four runs of digits separated by dots with no other characters. -/
theorem C1_counterexample :
    isValidIPv4Address "1.2.3.4abc" = .ok true ∧ isStrictDottedQuad "1.2.3.4abc" = false ∧
    isValidIPv4Address " 1.+2.3.4" = .ok true ∧ isStrictDottedQuad " 1.+2.3.4" = false := by
  decide

/-- The fields of an accepted address: four of them, separated by single
dots, each one a `LenientOctet`; and the address does not end with a dot. -/
theorem accepted_address_fields (s : String) (h : isValidIPv4Address s = .ok true) :
    ∃ a b c d : List Char, s.data = a ++ '.' :: (b ++ '.' :: (c ++ '.' :: d)) ∧
      LenientOctet a ∧ LenientOctet b ∧ LenientOctet c ∧ LenientOctet d := by
  simp only [isValidIPv4Address] at h
  cases hl : s.data.getLast? with
  | none => simp [hl] at h
  | some last =>
    simp only [hl] at h
    by_cases hdot : last = '.'
    · simp [hdot] at h
    · simp only [hdot, if_false] at h
      cases ho : octetLoop (s.length + 1) s.data 0 with
      | none => simp [ho] at h
      | some r =>
        cases r with
        | none => simp [ho] at h
        | some m =>
          simp only [ho] at h
          have hm : m = 4 := by
            by_cases h4 : m = 4
            · exact h4
            · simp [h4] at h
          subst hm
          have hlast : s.data.getLast? ≠ some '.' := by
            rw [hl]
            simpa using hdot
          obtain ⟨fs, hlen, hj, hall⟩ := octetLoop_fields _ _ _ _ ho hlast
          match fs, hlen, hj, hall with
          | [a, b, c, d], _, hj, hall =>
            refine ⟨a, b, c, d, ?_, hall a (by simp), hall b (by simp), hall c (by simp),
              hall d (by simp)⟩
            simpa [joinDots] using hj
          | [], hlen, _, _ => simp at hlen
          | [_], hlen, _, _ => simp at hlen
          | [_, _], hlen, _, _ => simp at hlen
          | [_, _, _], hlen, _, _ => simp at hlen
          | _ :: _ :: _ :: _ :: _ :: _, hlen, _, _ => simp at hlen

/-- Claim C1, as the code has it: if `isValidIPv4Address s` returns true then
`s` consists of exactly four fields separated by single `'.'` characters,
and each field starts, the way `std::stoi` reads it (after optional white
space and an optional sign), with a non-empty run of decimal digits denoting
a value in `0..255`; what follows the digits inside a field is not
checked. -/
theorem C1_accepted_address_shape (s : String) (h : isValidIPv4Address s = .ok true) :
    ∃ a b c d : List Char, s.data = a ++ '.' :: (b ++ '.' :: (c ++ '.' :: d)) ∧
      LenientOctet a ∧ LenientOctet b ∧ LenientOctet c ∧ LenientOctet d :=
  accepted_address_fields s h

theorem C1_accepted_address_shape_witness :
    isValidIPv4Address "127.0.0.1x" = .ok true ∧
    ∃ a b c d : List Char, "127.0.0.1x".data = a ++ '.' :: (b ++ '.' :: (c ++ '.' :: d)) ∧
      LenientOctet a ∧ LenientOctet b ∧ LenientOctet c ∧ LenientOctet d :=
  ⟨by decide, C1_accepted_address_shape "127.0.0.1x" (by decide)⟩

/-! ## The first command defines the command type -/

theorem setCommand_command (arg : String) (st : ParseState) :
    (setCommand arg st).command = if st.command = "" then arg else st.command := by
  unfold setCommand; split <;> rfl

/-- The `if` chain never changes `command`, and falls through only for one
of the four commands. -/
theorem commandChain_next_command (argv : List String) (arg : String) (st st2 : ParseState)
    (h : commandChain argv arg st = .next st2) :
    st2.command = st.command ∧
      (arg = "--subscribe" ∨ arg = "--publish" ∨ arg = "--list-topics" ∨
        arg = "--get-topic-status") := by
  rcases commandChain_next argv arg st st2 h with
    ⟨h1, _, _, h4⟩ | ⟨h1, _, t, m, _, _, h4⟩ | ⟨h1, _, h4⟩ | ⟨h1, _, _, h4⟩
  · obtain ⟨ts, rest, _, _, _, hst⟩ := topicLoop_ok _ _ _ _ h4
    exact ⟨by rw [hst], Or.inl h1⟩
  · exact ⟨by rw [h4], Or.inr (Or.inl h1)⟩
  · exact ⟨by rw [h4], Or.inr (Or.inr (Or.inl h1))⟩
  · obtain ⟨ts, rest, _, _, _, hst⟩ := topicLoop_ok _ _ _ _ h4
    exact ⟨by rw [hst], Or.inr (Or.inr (Or.inr h1))⟩

theorem drop_eq_cons_of_getElem? {argv : List String} {k : Nat} {a : String}
    (h : argv[k]? = some a) : argv.drop k = a :: argv.drop (k + 1) := by
  have hlt := lt_length_of_getElem? h
  rw [List.getElem?_eq_getElem hlt] at h
  simp only [Option.some.injEq] at h
  rw [← h]
  exact List.drop_eq_getElem_cons hlt

/-- The invariant behind claim C4: as long as no command has been met, what
is left of `argv` has the same first command as the whole of it; afterwards
`command` is that first command. -/
theorem firstCommand_invariant (argv : List String) (st st2 : ParseState)
    (hinv : (st.command = "" ∧
        firstCommandSpec (argv.drop 1) = firstCommandSpec (argv.drop st.i)) ∨
      (st.command ≠ "" ∧ firstCommandSpec (argv.drop 1) = some st.command))
    (hb : loopBody argv st = .next st2) :
    (st2.command = "" ∧
        firstCommandSpec (argv.drop 1) = firstCommandSpec (argv.drop (st2.i + 1))) ∨
      (st2.command ≠ "" ∧ firstCommandSpec (argv.drop 1) = some st2.command) := by
  obtain ⟨arg, harg, hcases⟩ := loopBody_next argv st st2 hb
  have hdrop := drop_eq_cons_of_getElem? harg
  have optionStep : ∀ v, (arg = "--port" ∨ arg = "--server-address" ∨ arg = "--server-port") →
      argv[st.i + 1]? = some v →
      firstCommandSpec (argv.drop st.i) = firstCommandSpec (argv.drop (st.i + 1 + 1)) := by
    intro v ha hv
    rw [hdrop, drop_eq_cons_of_getElem? hv]
    simp only [firstCommandSpec, ha, if_true]
  rcases hcases with ⟨v, ha, hv, _, hst⟩ | ⟨v, ha, hv, _, hst⟩ | ⟨v, ha, hv, _, hst⟩ |
    ⟨ha, hst⟩ | ⟨hhelp, hdebug, hchain⟩
  · subst hst
    rcases hinv with ⟨hc, hf⟩ | ⟨hc, hf⟩
    · exact Or.inl ⟨hc, by rw [hf]; exact optionStep v (Or.inl ha) hv⟩
    · exact Or.inr ⟨hc, hf⟩
  · subst hst
    rcases hinv with ⟨hc, hf⟩ | ⟨hc, hf⟩
    · exact Or.inl ⟨hc, by rw [hf]; exact optionStep v (Or.inr (Or.inl ha)) hv⟩
    · exact Or.inr ⟨hc, hf⟩
  · subst hst
    rcases hinv with ⟨hc, hf⟩ | ⟨hc, hf⟩
    · exact Or.inl ⟨hc, by rw [hf]; exact optionStep v (Or.inr (Or.inr ha)) hv⟩
    · exact Or.inr ⟨hc, hf⟩
  · subst hst
    rcases hinv with ⟨hc, hf⟩ | ⟨hc, hf⟩
    · refine Or.inl ⟨hc, ?_⟩
      rw [hf, hdrop, ha]
      cases hd : argv.drop (st.i + 1) with
      | nil => simp [firstCommandSpec, hd]
      | cons v following => simp [firstCommandSpec, hd]
    · exact Or.inr ⟨hc, hf⟩
  · obtain ⟨hcmd, hfour⟩ := commandChain_next_command argv arg _ st2 hchain
    rw [setCommand_command] at hcmd
    rcases hinv with ⟨hc, hf⟩ | ⟨hc, hf⟩
    · right
      simp only [hc, if_true] at hcmd
      have hne : arg ≠ "" := by
        rcases hfour with h | h | h | h <;> rw [h] <;> decide
      refine ⟨by rw [hcmd]; exact hne, ?_⟩
      rw [hf, hdrop, hcmd]
      cases hd : argv.drop (st.i + 1) with
      | nil =>
        rcases hfour with h | h | h | h <;> subst h <;> simp [firstCommandSpec]
      | cons v following =>
        rcases hfour with h | h | h | h <;> subst h <;> simp [firstCommandSpec]
    · right
      simp only [hc, if_false] at hcmd
      rw [hcmd]
      exact ⟨hc, hf⟩

/-- Claim C4: when the parse completes, the command `main` dispatches on is
the first argument that a left-to-right reading of `argv[1..]` meets which
is not `--port`/`--server-address`/`--server-port` with its value, `--help`
or `--debug` (and the empty string when there is none), whatever follows
it. -/
theorem C4_first_command_defines_type (construct : Int → String → Int → Bool)
    (argv : List String) (st : ParseState)
    (h : forLoop argv argv.length initialState = .done st) :
    st.command = (firstCommandSpec (argv.drop 1)).getD "" ∧
    main construct argv =
      if construct st.port st.serverAddress st.serverPort then
        execute { st with command := (firstCommandSpec (argv.drop 1)).getD "" }
      else
        earlyReturn 1 := by
  have key := parse_done_induction argv
    (fun s => (s.command = "" ∧
        firstCommandSpec (argv.drop 1) = firstCommandSpec (argv.drop s.i)) ∨
      (s.command ≠ "" ∧ firstCommandSpec (argv.drop 1) = some s.command))
    (Or.inl ⟨rfl, rfl⟩)
    (fun s s2 hinv _ hb => firstCommand_invariant argv s s2 hinv hb) st h
  obtain ⟨hinv, hle⟩ := key
  have hcmd : st.command = (firstCommandSpec (argv.drop 1)).getD "" := by
    rcases hinv with ⟨hc, hf⟩ | ⟨_, hf⟩
    · rw [hf, List.drop_eq_nil_of_le hle, hc]
      rfl
    · rw [hf]
      rfl
  refine ⟨hcmd, ?_⟩
  simp only [main, h]
  rw [← hcmd]

theorem C4_first_command_defines_type_witness :
    forLoop ["client", "--port", "81", "--debug", "--list-topics", "--publish", "--subscribe",
        "x"] 8 initialState =
      .done { initialState with
              i := 8, port := 81, command := "--list-topics"
              arguments := ["--subscribe", "x"], debug := true } ∧
    "--list-topics" =
      (firstCommandSpec (["client", "--port", "81", "--debug", "--list-topics", "--publish",
        "--subscribe", "x"].drop 1)).getD "" :=
  ⟨by decide,
    (C4_first_command_defines_type connects
      ["client", "--port", "81", "--debug", "--list-topics", "--publish", "--subscribe", "x"]
      { initialState with
        i := 8, port := 81, command := "--list-topics"
        arguments := ["--subscribe", "x"], debug := true } (by decide)).1⟩

/-! ## `--publish` and `--subscribe` -/

theorem subscribeFlagInv_step (argv : List String) (st st2 : ParseState)
    (hinv : SubscribeFlagInv st) (hb : loopBody argv st = .next st2) :
    SubscribeFlagInv { st2 with i := st2.i + 1 } := by
  obtain ⟨arg, _, hcases⟩ := loopBody_next argv st st2 hb
  rcases hcases with ⟨v, _, _, _, hst⟩ | ⟨v, _, _, _, hst⟩ | ⟨v, _, _, _, hst⟩ |
    ⟨_, hst⟩ | ⟨_, _, hchain⟩
  · subst hst; exact hinv
  · subst hst; exact hinv
  · subst hst; exact hinv
  · subst hst; exact hinv
  · have hcmd := setCommand_command arg st
    have hargs := setCommand_arguments arg st
    have hflag := setCommand_hasSubscribeCommand arg st
    rcases commandChain_next argv arg _ st2 hchain with
      ⟨_, hc, _, hloop⟩ | ⟨_, hempty, t, m, _, _, hst⟩ | ⟨_, hc, hst⟩ | ⟨_, hc, _, hloop⟩
    · obtain ⟨ts, rest, _, _, _, hst⟩ := topicLoop_ok _ _ _ _ hloop
      subst hst
      intro hf
      simp only [Bool.true_and, Bool.or_eq_true, Bool.not_eq_true', hflag] at hf
      refine ⟨hc, ?_⟩
      simp only [hargs]
      rcases hf with hf | hf
      · have := (hinv hf).2
        simp [this]
      · intro hnil
        have hts : ts = [] := (List.append_eq_nil.1 hnil).2
        simp [hts] at hf
    · subst hst
      intro hf
      simp only [hflag] at hf
      rw [hargs] at hempty
      exact absurd hempty (hinv hf).2
    · subst hst
      intro hf
      rw [hflag] at hf
      have h1 := (hinv hf).1
      rw [hcmd, h1] at hc
      simp at hc
    · obtain ⟨ts, rest, _, _, _, hst⟩ := topicLoop_ok _ _ _ _ hloop
      subst hst
      intro hf
      simp only [Bool.false_and, Bool.or_false, hflag] at hf
      have h1 := (hinv hf).1
      rw [hcmd, h1] at hc
      simp at hc

theorem publishInv_step (argv : List String) (st st2 : ParseState)
    (hinv : PublishInv argv st) (hb : loopBody argv st = .next st2) :
    PublishInv argv { st2 with i := st2.i + 1 } := by
  obtain ⟨hpos, hA, hC⟩ := hinv
  obtain ⟨arg, harg, hcases⟩ := loopBody_next argv st st2 hb
  have hport : getPortNumber "--publish" = -1 := by decide
  have haddr : isValidIPv4Address "--publish" ≠ .ok true := by decide
  have optionStep : ∀ v, arg ≠ "--publish" → argv[st.i + 1]? = some v → v ≠ "--publish" →
      PublishInv argv { st with i := st.i + 1 + 1 } := by
    intro v ha hv hvne
    refine ⟨by simp only; omega, ?_, ?_⟩
    · intro hc
      refine ⟨(hA hc).1, ?_⟩
      intro j hj1 hj2
      simp only at hj2
      by_cases h1 : j < st.i
      · exact (hA hc).2 j hj1 h1
      · by_cases h2 : j = st.i
        · rw [h2, harg]; simpa using ha
        · have h3 : j = st.i + 1 := by omega
          rw [h3, hv]; simpa using hvne
    · intro hc
      obtain ⟨k, t, m, h1, h2, h3⟩ := hC hc
      exact ⟨k, t, m, h1, by simp only; omega, h3⟩
  rcases hcases with ⟨v, ha, hv, hok, hst⟩ | ⟨v, ha, hv, hok, hst⟩ | ⟨v, ha, hv, hok, hst⟩ |
    ⟨ha, hst⟩ | ⟨_, _, hchain⟩
  · subst hst
    exact optionStep v (by rw [ha]; decide) hv (fun h => hok (by rw [h]; exact hport))
  · subst hst
    exact optionStep v (by rw [ha]; decide) hv (fun h => haddr (by rw [← h]; exact hok))
  · subst hst
    exact optionStep v (by rw [ha]; decide) hv (fun h => hok (by rw [h]; exact hport))
  · subst hst
    refine ⟨by simp only; omega, ?_, ?_⟩
    · intro hc
      refine ⟨(hA hc).1, ?_⟩
      intro j hj1 hj2
      simp only at hj2
      by_cases h1 : j < st.i
      · exact (hA hc).2 j hj1 h1
      · have h2 : j = st.i := by omega
        rw [h2, harg, ha]; decide
    · intro hc
      obtain ⟨k, t, m, h1, h2, h3⟩ := hC hc
      exact ⟨k, t, m, h1, by simp only; omega, h3⟩
  · have hcmd := setCommand_command arg st
    have hargs := setCommand_arguments arg st
    have hi := setCommand_i arg st
    rcases commandChain_next argv arg _ st2 hchain with
      ⟨_, hc, _, hloop⟩ | ⟨hp, hempty, t, m, ht, hm, hst⟩ | ⟨_, hc, hst⟩ | ⟨_, hc, _, hloop⟩
    · obtain ⟨ts, rest, _, _, _, hst⟩ := topicLoop_ok _ _ _ _ hloop
      subst hst
      refine ⟨by simp only [hi]; omega, ?_, ?_⟩ <;> intro h <;> simp only [hc] at h <;>
        exact absurd h (by decide)
    · subst hst
      rw [hargs] at hempty
      rw [hi] at ht hm
      refine ⟨by simp only [hi]; omega, ?_, ?_⟩
      · intro h
        simp only [hcmd] at h
        split at h
        · rw [hp] at h; exact absurd h (by decide)
        · rename_i hne; exact absurd h hne
      · intro h
        simp only [hcmd] at h
        by_cases hc : st.command = ""
        · refine ⟨st.i, t, m, hpos, by simp only [hi]; omega, by rw [harg, hp], (hA hc).2,
            ht, hm, rfl⟩
        · simp only [hc, if_false] at h
          obtain ⟨k, t2, m2, _, _, _, _, _, _, hargs2⟩ := hC h
          rw [hargs2] at hempty
          exact absurd hempty (by simp)
    · subst hst
      refine ⟨by simp only [hi]; omega, ?_, ?_⟩ <;> intro h <;> simp only [hc] at h <;>
        exact absurd h (by decide)
    · obtain ⟨ts, rest, _, _, _, hst⟩ := topicLoop_ok _ _ _ _ hloop
      subst hst
      refine ⟨by simp only [hi]; omega, ?_, ?_⟩ <;> intro h <;> simp only [hc] at h <;>
        exact absurd h (by decide)

/-- A property kept by every pass and true in some state holds when the
loop started in that state runs to its end. -/
theorem forLoop_done_induction (argv : List String) (P : ParseState → Prop)
    (hstep : ∀ st st2, P st → st.i < argv.length → loopBody argv st = .next st2 →
      P { st2 with i := st2.i + 1 }) :
    ∀ (fuel : Nat) (st0 st : ParseState), P st0 → forLoop argv fuel st0 = .done st → P st := by
  intro fuel
  induction fuel with
  | zero =>
    intro st0 st h0 h
    simp only [forLoop] at h
    split at h
    · contradiction
    · simp only [Scan.done.injEq] at h
      subst h
      exact h0
  | succ fuel ih =>
    intro st0 st h0 h
    simp only [forLoop] at h
    split at h
    · rename_i hlt
      split at h
      · rename_i st2 hb
        exact ih _ st (hstep st0 st2 h0 hlt hb) h
      · contradiction
      · contradiction
    · simp only [Scan.done.injEq] at h
      subst h
      exact h0

/-- Once a command is set, no pass changes it. -/
theorem command_step (argv : List String) (st st2 : ParseState)
    (hb : loopBody argv st = .next st2) (hne : st.command ≠ "") :
    st2.command = st.command := by
  obtain ⟨arg, _, hcases⟩ := loopBody_next argv st st2 hb
  rcases hcases with ⟨v, _, _, _, hst⟩ | ⟨v, _, _, _, hst⟩ | ⟨v, _, _, _, hst⟩ |
    ⟨_, hst⟩ | ⟨_, _, hchain⟩
  · rw [hst]
  · rw [hst]
  · rw [hst]
  · rw [hst]
  · rw [(commandChain_next_command argv arg _ st2 hchain).1, setCommand_command, if_neg hne]

theorem publishInv_initial (argv : List String) : PublishInv argv initialState := by
  refine ⟨by decide, ?_, ?_⟩
  · intro _
    refine ⟨rfl, ?_⟩
    intro j h1 h2
    simp only [initialState] at h2
    omega
  · intro h
    exact absurd h (by decide)

/-- Claim C7: when the parse completes with command `--publish`, the argument
list is `[t, m]` where `t` and `m` are the two elements of `argv` right
after the `--publish` flag; that flag is the first `--publish` among
`argv[1..]` and the only one the scan meets; and, the client being
constructed, `main` makes the single call `publishTopic(t, m)`, does not
wait, and returns 0. -/
theorem C7_publish_topic_and_message (argv : List String) (st : ParseState)
    (hdone : forLoop argv argv.length initialState = .done st)
    (hcmd : st.command = "--publish") :
    ∃ k t m, 1 ≤ k ∧ argv[k]? = some "--publish" ∧
      (∀ j, 1 ≤ j → j < k → argv[j]? ≠ some "--publish") ∧
      (∀ n2 st2, scanState argv n2 = some st2 → argv[st2.i]? = some "--publish" → st2.i = k) ∧
      argv[k + 1]? = some t ∧ argv[k + 2]? = some m ∧
      st.arguments = [t, m] ∧
      ∀ construct : Int → String → Int → Bool,
        construct st.port st.serverAddress st.serverPort = true →
        main construct argv =
          .returned { exitCode := 0, client := some (st.port, st.serverAddress, st.serverPort),
                      calls := [ClientCall.publishTopic t m], waited := false } := by
  obtain ⟨hP, _⟩ := parse_done_induction argv (PublishInv argv) (publishInv_initial argv)
    (fun s s2 hinv _ hb => publishInv_step argv s s2 hinv hb) st hdone
  obtain ⟨hF, _⟩ := parse_done_induction argv SubscribeFlagInv
    (fun h => absurd h (by decide))
    (fun s s2 hinv _ hb => subscribeFlagInv_step argv s s2 hinv hb) st hdone
  obtain ⟨k, t, m, hk, _, hak, hfirst, ht, hm, hargs⟩ := hP.2.2 hcmd
  refine ⟨k, t, m, hk, hak, hfirst, ?_, ht, hm, hargs, ?_⟩
  · intro n2 s hn2 hmeet
    have hPs : PublishInv argv s := scanState_induction argv (PublishInv argv)
      (publishInv_initial argv) (fun s s2 hinv _ hb => publishInv_step argv s s2 hinv hb) n2 s hn2
    have hrest := forLoop_of_scanState argv n2 s hn2
    rw [hdone] at hrest
    have hlt := lt_length_of_getElem? hmeet
    obtain ⟨f, hf⟩ : ∃ f, argv.length - s.i = f + 1 := ⟨argv.length - s.i - 1, by omega⟩
    rw [hf, forLoop_succ, if_pos hlt] at hrest
    cases hb : loopBody argv s with
    | ret code => simp [hb] at hrest
    | undefined u => simp [hb] at hrest
    | next s2 =>
      simp only [hb] at hrest
      obtain ⟨arg, harg, hcases⟩ := loopBody_next argv s s2 hb
      rw [hmeet] at harg
      simp only [Option.some.injEq] at harg
      subst harg
      rcases hcases with ⟨v, h, _⟩ | ⟨v, h, _⟩ | ⟨v, h, _⟩ | ⟨h, _⟩ | ⟨_, _, hchain⟩
      · exact absurd h (by decide)
      · exact absurd h (by decide)
      · exact absurd h (by decide)
      · exact absurd h (by decide)
      · rcases commandChain_next argv _ _ s2 hchain with
          ⟨h, _⟩ | ⟨_, hempty, _, _, _, _, hs2⟩ | ⟨h, _⟩ | ⟨h, _⟩
        · exact absurd h (by decide)
        · rw [setCommand_arguments] at hempty
          by_cases hc : s.command = ""
          · -- this pass sets the command: it is the first `--publish`
            have hnone := (hPs.2.1 hc).2
            rcases Nat.lt_trichotomy s.i k with hlt2 | heq | hgt
            · exact absurd hmeet (hfirst s.i hPs.1 hlt2)
            · exact heq
            · exact absurd hak (hnone k hk hgt)
          · -- the command was set before: it is the final one, `--publish`
            have hkeep : st.command = s.command := by
              have hs2c : s2.command = s.command := command_step argv s s2 hb hc
              have := forLoop_done_induction argv (fun x => x.command = s.command)
                (fun x x2 hx _ hbx => by
                  have hxne : x.command ≠ "" := by rw [hx]; exact hc
                  simp only
                  rw [command_step argv x x2 hbx hxne, hx]) f
                { s2 with i := s2.i + 1 } st hs2c hrest.symm
              exact this
            obtain ⟨_, _, _, _, _, _, _, _, _, hargs2⟩ := hPs.2.2 (by rw [← hkeep]; exact hcmd)
            rw [hargs2] at hempty
            exact absurd hempty (by simp)
        · exact absurd h (by decide)
        · exact absurd h (by decide)
  · intro construct hcon
    have hflag : st.hasSubscribeCommand = false := by
      cases hf : st.hasSubscribeCommand with
      | false => rfl
      | true =>
        have := (hF hf).1
        rw [hcmd] at this
        exact absurd this (by decide)
    simp [main, hdone, hcon, execute, hcmd, hargs, finish, hflag]

theorem C7_publish_topic_and_message_witness :
    forLoop ["client", "--server-port", "81", "--publish", "--publish", "hello", "--debug"] 7
        initialState =
      .done { initialState with
              i := 7, serverPort := 81, command := "--publish"
              arguments := ["--publish", "hello"], debug := true } ∧
    ∃ k t m, 1 ≤ k ∧
      ["client", "--server-port", "81", "--publish", "--publish", "hello", "--debug"][k]? =
        some "--publish" ∧
      (∀ j, 1 ≤ j → j < k →
        ["client", "--server-port", "81", "--publish", "--publish", "hello", "--debug"][j]? ≠
          some "--publish") ∧
      (∀ n2 st2,
        scanState ["client", "--server-port", "81", "--publish", "--publish", "hello", "--debug"]
          n2 = some st2 →
        ["client", "--server-port", "81", "--publish", "--publish", "hello", "--debug"][st2.i]? =
          some "--publish" → st2.i = k) ∧
      ["client", "--server-port", "81", "--publish", "--publish", "hello", "--debug"][k + 1]? =
        some t ∧
      ["client", "--server-port", "81", "--publish", "--publish", "hello", "--debug"][k + 2]? =
        some m ∧
      ["--publish", "hello"] = [t, m] ∧
      ∀ construct : Int → String → Int → Bool,
        construct 0 "127.0.0.1" 81 = true →
        main construct
            ["client", "--server-port", "81", "--publish", "--publish", "hello", "--debug"] =
          .returned { exitCode := 0, client := some (0, "127.0.0.1", 81),
                      calls := [ClientCall.publishTopic t m], waited := false } :=
  ⟨by decide,
    C7_publish_topic_and_message
      ["client", "--server-port", "81", "--publish", "--publish", "hello", "--debug"]
      { initialState with
        i := 7, serverPort := 81, command := "--publish"
        arguments := ["--publish", "hello"], debug := true }
      (by decide) rfl⟩

/-! ## Waiting for the ENTER key -/

/-- A pass never clears `hasSubscribeCommand`; when a pass sets it, that pass
is one in which the `--subscribe` loop accepts a topic. -/
theorem hasSubscribeCommand_step (argv : List String) (st st2 : ParseState)
    (hb : loopBody argv st = .next st2) :
    (st.hasSubscribeCommand = true → st2.hasSubscribeCommand = true) ∧
    (st.hasSubscribeCommand = false → st2.hasSubscribeCommand = true →
      argv[st.i]? = some "--subscribe" ∧ (st.command = "" ∨ st.command = "--subscribe") ∧
      ∃ t, argv[st.i + 1]? = some t ∧ topicCond t = .ok true) := by
  obtain ⟨arg, harg, hcases⟩ := loopBody_next argv st st2 hb
  rcases hcases with ⟨v, _, _, _, hst⟩ | ⟨v, _, _, _, hst⟩ | ⟨v, _, _, _, hst⟩ |
    ⟨_, hst⟩ | ⟨_, _, hchain⟩
  · subst hst; exact ⟨id, fun h1 h2 => by simp [h1] at h2⟩
  · subst hst; exact ⟨id, fun h1 h2 => by simp [h1] at h2⟩
  · subst hst; exact ⟨id, fun h1 h2 => by simp [h1] at h2⟩
  · subst hst; exact ⟨id, fun h1 h2 => by simp [h1] at h2⟩
  · have hcmd := setCommand_command arg st
    have hflag := setCommand_hasSubscribeCommand arg st
    have hi := setCommand_i arg st
    rcases commandChain_next argv arg _ st2 hchain with
      ⟨ha, hc, _, hloop⟩ | ⟨_, _, t, m, _, _, hst⟩ | ⟨_, _, hst⟩ | ⟨_, _, _, hloop⟩
    · obtain ⟨ts, rest, hl, hts, _, hst⟩ := topicLoop_ok _ _ _ _ hloop
      subst hst
      refine ⟨fun h => by simp [hflag, h], ?_⟩
      intro h1 h2
      simp only [hflag, h1, Bool.true_and, Bool.false_or, Bool.not_eq_true',
        List.isEmpty_eq_false] at h2
      refine ⟨by rw [harg, ha], ?_, ?_⟩
      · rw [hcmd] at hc
        by_cases h0 : st.command = ""
        · exact Or.inl h0
        · simp only [h0, if_false] at hc
          exact Or.inr hc
      · cases ts with
        | nil => exact absurd rfl h2
        | cons t ts =>
          refine ⟨t, ?_, hts t (by simp)⟩
          rw [hi] at hl
          have : (argv.drop (st.i + 1))[0]? = some t := by rw [hl]; simp
          simpa using this
    · subst hst
      exact ⟨fun h => by simp [hflag, h], fun h1 h2 => by simp [hflag, h1] at h2⟩
    · subst hst
      exact ⟨fun h => by simp [hflag, h], fun h1 h2 => by simp [hflag, h1] at h2⟩
    · obtain ⟨ts, rest, _, _, _, hst⟩ := topicLoop_ok _ _ _ _ hloop
      subst hst
      exact ⟨fun h => by simp [hflag, h], fun h1 h2 => by simp [hflag, h1] at h2⟩

/-- If `hasSubscribeCommand` is set in a state the scan reaches, the
`--subscribe` loop has accepted a topic. -/
theorem accepted_of_hasSubscribeCommand (argv : List String) : ∀ (n : Nat) (st : ParseState),
    scanState argv n = some st → st.hasSubscribeCommand = true →
    AcceptedSubscribeTopic argv := by
  intro n
  induction n with
  | zero =>
    intro st h hf
    simp only [scanState, Option.some.injEq] at h
    subst h
    exact absurd hf (by decide)
  | succ n ih =>
    intro st h hf
    simp only [scanState] at h
    split at h
    · contradiction
    · rename_i st1 h1
      split at h
      · split at h
        · rename_i st2 hb
          simp only [Option.some.injEq] at h
          subst h
          simp only at hf
          cases hf1 : st1.hasSubscribeCommand with
          | true => exact ih st1 h1 hf1
          | false =>
            obtain ⟨ha, hc, t, ht, htc⟩ := (hasSubscribeCommand_step argv st1 st2 hb).2 hf1 hf
            exact ⟨n, st1, t, h1, ha, hc, ht, htc⟩
        · contradiction
      · contradiction

/-- Claim C5 fails as stated: `client --subscribe --debug` completes its
parse with command `--subscribe` and executes it (with no topic), but does
not wait for the ENTER key; and `client --subscribe --publish t m` makes two
`subscribeTopic` calls without waiting. -/
theorem C5_counterexample :
    forLoop ["client", "--subscribe", "--debug"] 3 initialState =
      .done { initialState with i := 3, command := "--subscribe", debug := true } ∧
    main connects ["client", "--subscribe", "--debug"] =
      .returned { exitCode := 0, client := some (0, "127.0.0.1", 8080), calls := [],
                  waited := false } ∧
    main connects ["client", "--subscribe", "--publish", "t", "m"] =
      .returned { exitCode := 0, client := some (0, "127.0.0.1", 8080),
                  calls := [ClientCall.subscribeTopic "t", ClientCall.subscribeTopic "m"],
                  waited := false } := by
  decide

/-- Claim C5, as the code has it: when the parse completes and the client is
constructed, `main` returns, and it waits for the ENTER key exactly when the
`--subscribe` topic loop accepted at least one topic name; whenever it waits,
the command it executes is `--subscribe` and it makes at least one client
call, all of them `subscribeTopic` (so it never waits for `--publish`,
`--list-topics` or `--get-topic-status`). -/
theorem C5_waits_iff_topic_accepted (construct : Int → String → Int → Bool)
    (argv : List String) (st : ParseState)
    (hdone : forLoop argv argv.length initialState = .done st)
    (hcon : construct st.port st.serverAddress st.serverPort = true) :
    ∃ r, main construct argv = .returned r ∧
      (r.waited = true ↔ AcceptedSubscribeTopic argv) ∧
      (r.waited = true → st.command = "--subscribe" ∧ r.exitCode = 0 ∧ r.calls ≠ [] ∧
        ∀ c ∈ r.calls, ∃ t, c = ClientCall.subscribeTopic t) := by
  obtain ⟨hP, _⟩ := parse_done_induction argv (PublishInv argv) (publishInv_initial argv)
    (fun s s2 hinv _ hb => publishInv_step argv s s2 hinv hb) st hdone
  obtain ⟨hF, _⟩ := parse_done_induction argv SubscribeFlagInv
    (fun h => absurd h (by decide))
    (fun s s2 hinv _ hb => subscribeFlagInv_step argv s s2 hinv hb) st hdone
  -- the flag at the end of the scan is set exactly when a topic was accepted
  have hiff : st.hasSubscribeCommand = true ↔ AcceptedSubscribeTopic argv := by
    constructor
    · intro hf
      obtain ⟨n, hn, _⟩ := forLoop_done_reached argv argv.length 0 initialState st rfl hdone
      exact accepted_of_hasSubscribeCommand argv n st hn hf
    · rintro ⟨n, st0, t, hn, ha, hc, ht, htc⟩
      have hrest := forLoop_of_scanState argv n st0 hn
      rw [hdone] at hrest
      have hlt := lt_length_of_getElem? ha
      obtain ⟨k, hk⟩ : ∃ k, argv.length - st0.i = k + 1 := ⟨argv.length - st0.i - 1, by omega⟩
      rw [hk] at hrest
      simp only [forLoop, hlt, if_true] at hrest
      cases hb : loopBody argv st0 with
      | ret code => simp [hb] at hrest
      | undefined u => simp [hb] at hrest
      | next st2 =>
        simp only [hb] at hrest
        have hset : st2.hasSubscribeCommand = true := by
          obtain ⟨arg, harg, hcases⟩ := loopBody_next argv st0 st2 hb
          rw [ha] at harg
          simp only [Option.some.injEq] at harg
          subst harg
          rcases hcases with ⟨v, h, _⟩ | ⟨v, h, _⟩ | ⟨v, h, _⟩ | ⟨h, _⟩ | ⟨_, _, hchain⟩
          · exact absurd h (by decide)
          · exact absurd h (by decide)
          · exact absurd h (by decide)
          · exact absurd h (by decide)
          · rcases commandChain_next argv _ _ st2 hchain with
              ⟨_, _, _, hloop⟩ | ⟨h, _⟩ | ⟨h, _⟩ | ⟨h, _⟩
            · obtain ⟨ts, rest, hl, _, hrst, hst⟩ := topicLoop_ok _ _ _ _ hloop
              rw [setCommand_i] at hl
              cases ts with
              | nil =>
                have h0 : (argv.drop (st0.i + 1))[0]? = some t := by simpa using ht
                rw [hl] at h0
                have := hrst t (by simpa [List.head?_eq_getElem?] using h0)
                rw [htc] at this
                exact absurd this (by decide)
              | cons t2 ts => rw [hst]; simp
            · exact absurd h (by decide)
            · exact absurd h (by decide)
            · exact absurd h (by decide)
        exact forLoop_done_induction argv (fun s => s.hasSubscribeCommand = true)
          (fun s s2 hs _ hb2 => (hasSubscribeCommand_step argv s s2 hb2).1 hs) k
          { st2 with i := st2.i + 1 } st hset hrest.symm
  simp only [main, hdone, hcon, if_true, execute]
  by_cases h1 : st.command = "--subscribe"
  · simp only [h1, if_true, finish]
    refine ⟨_, rfl, hiff, ?_⟩
    intro hw
    refine ⟨trivial, rfl, ?_, ?_⟩
    · have := (hF hw).2
      simpa using this
    · intro c hc
      obtain ⟨t, _, rfl⟩ := List.mem_map.1 hc
      exact ⟨t, rfl⟩
  · have hnf : st.hasSubscribeCommand = false := by
      cases hf : st.hasSubscribeCommand with
      | false => rfl
      | true => exact absurd (hF hf).1 h1
    have hnacc : ¬ AcceptedSubscribeTopic argv := by
      intro h; rw [← hiff, hnf] at h; exact absurd h (by decide)
    simp only [h1, if_false]
    by_cases h2 : st.command = "--publish"
    · obtain ⟨k, t, m, _, _, _, _, _, _, hargs⟩ := hP.2.2 h2
      simp only [h2, if_true, hargs, List.head?_cons, finish, hnf]
      refine ⟨_, rfl, ?_, ?_⟩
      · simp [hnacc]
      · intro hw; simp at hw
    · simp only [h2, if_false]
      by_cases h3 : st.command = "--list-topics"
      · simp only [h3, if_true, finish, hnf]
        refine ⟨_, rfl, ?_, ?_⟩
        · simp [hnacc]
        · intro hw; simp at hw
      · simp only [h3, if_false]
        by_cases h4 : st.command = "--get-topic-status"
        · simp only [h4, if_true, finish, hnf]
          refine ⟨_, rfl, ?_, ?_⟩
          · simp [hnacc]
          · intro hw; simp at hw
        · simp only [h4, if_false]
          refine ⟨_, rfl, ?_, ?_⟩
          · simp [hnacc]
          · intro hw; simp at hw

theorem C5_waits_iff_topic_accepted_witness :
    forLoop ["client", "--subscribe", "news", "--debug"] 4 initialState =
      .done { initialState with
              i := 4, command := "--subscribe", arguments := ["news"]
              hasSubscribeCommand := true, debug := true } ∧
    ∃ r, main connects ["client", "--subscribe", "news", "--debug"] = .returned r ∧
      (r.waited = true ↔ AcceptedSubscribeTopic ["client", "--subscribe", "news", "--debug"]) ∧
      (r.waited = true → "--subscribe" = "--subscribe" ∧ r.exitCode = 0 ∧ r.calls ≠ [] ∧
        ∀ c ∈ r.calls, ∃ t, c = ClientCall.subscribeTopic t) :=
  ⟨by decide,
    C5_waits_iff_topic_accepted connects ["client", "--subscribe", "news", "--debug"]
      { initialState with
        i := 4, command := "--subscribe", arguments := ["news"]
        hasSubscribeCommand := true, debug := true }
      (by decide) rfl⟩

/-! ## Topic lists that the loop condition lets through -/

theorem topicLoop_all (b : Bool) : ∀ (ts : List String) (st : ParseState),
    (∀ t ∈ ts, topicCond t = .ok true) →
    topicLoop b ts st = .ok { st with
      arguments := st.arguments ++ ts
      i := st.i + ts.length
      hasSubscribeCommand := st.hasSubscribeCommand || (b && !ts.isEmpty) } := by
  intro ts
  induction ts with
  | nil => intro st _; simp [topicLoop]
  | cons t ts ih =>
    intro st h
    have ht : topicCond t = .ok true := h t (by simp)
    simp only [topicLoop, ht]
    rw [ih _ (fun x hx => h x (by simp [hx]))]
    cases b <;> simp [Nat.add_assoc, Nat.add_comm 1]

/-- What `--subscribe t1 ... tn` does when every topic name passes the loop
condition of line 98 (neither its first nor its second character is `-`):
the parse completes, and once the client is constructed `main` subscribes to
`t1, ..., tn` in that order, waits for the ENTER key and returns 0. -/
theorem subscribe_accepted_topics (construct : Int → String → Int → Bool)
    (prog : String) (ts : List String) (hne : ts ≠ [])
    (hts : ∀ t ∈ ts, topicCond t = .ok true)
    (hcon : construct 0 "127.0.0.1" 8080 = true) :
    main construct (prog :: "--subscribe" :: ts) =
      .returned { exitCode := 0, client := some (0, "127.0.0.1", 8080),
                  calls := ts.map ClientCall.subscribeTopic, waited := true } := by
  have hlen : 1 + 1 < (prog :: "--subscribe" :: ts).length := by
    cases ts with
    | nil => exact absurd rfl hne
    | cons t ts => simp
  have hbody : loopBody (prog :: "--subscribe" :: ts) initialState =
      .next { initialState with
        command := "--subscribe"
        arguments := ts
        i := 1 + ts.length
        hasSubscribeCommand := true } := by
    have h1 : (prog :: "--subscribe" :: ts)[initialState.i]? = some "--subscribe" := by
      simp [initialState]
    have hset : setCommand "--subscribe" initialState =
        { initialState with command := "--subscribe" } := rfl
    have hdrop : (prog :: "--subscribe" :: ts).drop (1 + 1) = ts := rfl
    simp only [loopBody, h1, commandBlock, hset, commandChain]
    simp only [initialState] at hlen ⊢
    simp only [hdrop, topicLoop_all true ts _ hts]
    cases ts with
    | nil => exact absurd rfl hne
    | cons t ts => simp
  have hloop : forLoop (prog :: "--subscribe" :: ts) (prog :: "--subscribe" :: ts).length
      initialState = .done { initialState with
        command := "--subscribe"
        arguments := ts
        i := 1 + ts.length + 1
        hasSubscribeCommand := true } := by
    have hl : (prog :: "--subscribe" :: ts).length = (ts.length + 1) + 1 := by simp
    have hlt : initialState.i < (prog :: "--subscribe" :: ts).length := by
      simp [initialState]
    rw [hl, forLoop_succ, if_pos hlt, hbody]
    simp only
    apply forLoop_at_end
    simp only [List.length_cons]
    omega
  simp only [main, hloop]
  simp [initialState, hcon, execute, finish]

/-! ## Totality of the address check -/

theorem getline_length (ss octet rest : List Char) (delim : Char)
    (h : getline ss delim = some (octet, rest)) : rest.length < ss.length := by
  cases ss with
  | nil => simp [getline] at h
  | cons c cs =>
    simp only [getline, Option.some.injEq, Prod.mk.injEq] at h
    rw [← h.2]
    have h1 : ((c :: cs).dropWhile (fun c => c != delim)).length ≤ (c :: cs).length :=
      (List.dropWhile_sublist _).length_le
    simp only [List.length_tail]
    simp only [List.length_cons] at h1 ⊢
    omega

/-- With more fuel than characters, the `getline` loop never runs out of
fuel: the last case of `isValidIPv4Address` is never taken. -/
theorem octetLoop_fuel : ∀ (fuel : Nat) (ss : List Char) (n : Nat),
    ss.length < fuel → octetLoop fuel ss n ≠ none := by
  intro fuel
  induction fuel with
  | zero => intro ss n h; omega
  | succ fuel ih =>
    intro ss n h
    simp only [octetLoop]
    cases hg : getline ss '.' with
    | none => simp
    | some fr =>
      obtain ⟨octet, rest⟩ := fr
      have hlen := getline_length ss octet rest '.' hg
      simp only
      split
      · split
        · simp
        · exact ih rest (n + 1) (by omega)
      · simp

/-! ## Option values -/

/-- The result of `getPortNumber` is `-1` or a port number. -/
theorem getPortNumber_range (s : String) : getPortNumber s = -1 ∨ IsPort (getPortNumber s) := by
  simp only [getPortNumber, IsPort]
  cases stoi s with
  | error e => left; rfl
  | ok port =>
    simp only
    split
    · left; rfl
    · right; omega

/-- A pass through the commands leaves the three option values alone. -/
theorem commandChain_next_options (argv : List String) (arg : String) (st st2 : ParseState)
    (h : commandChain argv arg (setCommand arg st) = .next st2) :
    st2.port = st.port ∧ st2.serverAddress = st.serverAddress ∧
      st2.serverPort = st.serverPort := by
  have hset : (setCommand arg st).port = st.port ∧
      (setCommand arg st).serverAddress = st.serverAddress ∧
      (setCommand arg st).serverPort = st.serverPort := by
    unfold setCommand; split <;> exact ⟨rfl, rfl, rfl⟩
  rcases commandChain_next argv arg _ st2 h with
    ⟨_, _, _, h4⟩ | ⟨_, _, t, m, _, _, h4⟩ | ⟨_, _, h4⟩ | ⟨_, _, _, h4⟩
  · obtain ⟨ts, rest, _, _, _, hst⟩ := topicLoop_ok _ _ _ _ h4
    rw [hst]; exact hset
  · rw [h4]; exact hset
  · rw [h4]; exact hset
  · obtain ⟨ts, rest, _, _, _, hst⟩ := topicLoop_ok _ _ _ _ h4
    rw [hst]; exact hset

theorem ports_step (argv : List String) (st st2 : ParseState)
    (hinv : IsPort st.port ∧ IsPort st.serverPort) (hb : loopBody argv st = .next st2) :
    IsPort st2.port ∧ IsPort st2.serverPort := by
  obtain ⟨arg, _, hcases⟩ := loopBody_next argv st st2 hb
  rcases hcases with ⟨v, _, _, hok, hst⟩ | ⟨v, _, _, _, hst⟩ | ⟨v, _, _, hok, hst⟩ |
    ⟨_, hst⟩ | ⟨_, _, hchain⟩
  · subst hst
    exact ⟨(getPortNumber_range v).resolve_left hok, hinv.2⟩
  · subst hst; exact hinv
  · subst hst
    exact ⟨hinv.1, (getPortNumber_range v).resolve_left hok⟩
  · subst hst; exact hinv
  · obtain ⟨h1, _, h3⟩ := commandChain_next_options argv arg st st2 hchain
    rw [h1, h3]; exact hinv

/-- Claim C12: for every string `s`, `getPortNumber s` is `-1` or an integer
in `0..65535`; hence, when the parse completes, the values of `port` and
`serverPort` that `main` passes to the `Client` constructor lie in
`0..65535` (and they are what a constructed client was given). -/
theorem C12_port_range :
    (∀ s : String, getPortNumber s = -1 ∨ (0 ≤ getPortNumber s ∧ getPortNumber s ≤ 65535)) ∧
    (∀ (argv : List String) (st : ParseState),
      forLoop argv argv.length initialState = .done st →
      (0 ≤ st.port ∧ st.port ≤ 65535) ∧ (0 ≤ st.serverPort ∧ st.serverPort ≤ 65535) ∧
      ∀ construct : Int → String → Int → Bool,
        main construct argv =
          if construct st.port st.serverAddress st.serverPort then execute st
          else earlyReturn 1) ∧
    (∀ (construct : Int → String → Int → Bool) (argv : List String) (r : Run)
      (p : Int) (a : String) (sp : Int),
      main construct argv = .returned r → r.client = some (p, a, sp) →
      (0 ≤ p ∧ p ≤ 65535) ∧ (0 ≤ sp ∧ sp ≤ 65535)) := by
  have hdone : ∀ (argv : List String) (st : ParseState),
      forLoop argv argv.length initialState = .done st →
      IsPort st.port ∧ IsPort st.serverPort := by
    intro argv st h
    exact (parse_done_induction argv (fun s => IsPort s.port ∧ IsPort s.serverPort)
      ⟨by unfold IsPort; decide, by unfold IsPort; decide⟩
      (fun s s2 hinv _ hb => ports_step argv s s2 hinv hb) st h).1
  refine ⟨getPortNumber_range, ?_, ?_⟩
  · intro argv st h
    refine ⟨(hdone argv st h).1, (hdone argv st h).2, ?_⟩
    intro construct
    simp only [main, h]
  · intro construct argv r p a sp hmain hclient
    simp only [main] at hmain
    cases hloop : forLoop argv argv.length initialState with
    | ret code =>
      simp only [hloop, earlyReturn, Outcome.returned.injEq] at hmain
      rw [← hmain] at hclient
      exact absurd hclient (by simp)
    | undefined u => simp [hloop] at hmain
    | outOfFuel => simp [hloop] at hmain
    | done st =>
      have hp := hdone argv st hloop
      simp only [hloop] at hmain
      split at hmain
      · have hcl : r.client = some (st.port, st.serverAddress, st.serverPort) := by
          simp only [execute, finish] at hmain
          repeat' split at hmain
          all_goals first
            | contradiction
            | (simp only [Outcome.returned.injEq] at hmain
               rw [← hmain])
        rw [hcl] at hclient
        simp only [Option.some.injEq, Prod.mk.injEq] at hclient
        obtain ⟨h1, _, h3⟩ := hclient
        rw [← h1, ← h3]
        exact hp
      · simp only [earlyReturn, Outcome.returned.injEq] at hmain
        rw [← hmain] at hclient
        exact absurd hclient (by simp)

theorem C12_port_range_witness :
    forLoop ["client", "--port", "65535", "--server-port", "0x", "--list-topics"] 6
        initialState =
      .done { initialState with
              i := 6, port := 65535, serverPort := 0, command := "--list-topics" } ∧
    ((0 : Int) ≤ 65535 ∧ (65535 : Int) ≤ 65535) ∧ ((0 : Int) ≤ 0 ∧ (0 : Int) ≤ 65535) :=
  ⟨by decide,
    (C12_port_range.2.1
      ["client", "--port", "65535", "--server-port", "0x", "--list-topics"]
      { initialState with
        i := 6, port := 65535, serverPort := 0, command := "--list-topics" }
      (by decide)).1,
    (C12_port_range.2.1
      ["client", "--port", "65535", "--server-port", "0x", "--list-topics"]
      { initialState with
        i := 6, port := 65535, serverPort := 0, command := "--list-topics" }
      (by decide)).2.1⟩

theorem scanState_succ_some (argv : List String) (n : Nat) (st : ParseState)
    (h : scanState argv (n + 1) = some st) :
    ∃ s s2, scanState argv n = some s ∧ s.i < argv.length ∧ loopBody argv s = .next s2 ∧
      st = { s2 with i := s2.i + 1 } := by
  simp only [scanState] at h
  split at h
  · contradiction
  · rename_i s hs
    split at h
    · rename_i hlt
      split at h
      · rename_i s2 hb
        simp only [Option.some.injEq] at h
        exact ⟨s, s2, hs, hlt, hb, h.symm⟩
      · contradiction
    · contradiction

theorem scanState_i_ge (argv : List String) : ∀ (n : Nat) (st : ParseState),
    scanState argv n = some st → n + 1 ≤ st.i := by
  intro n
  induction n with
  | zero =>
    intro st h
    simp only [scanState, Option.some.injEq] at h
    subst h
    decide
  | succ n ih =>
    intro st h
    obtain ⟨s, s2, hs, _, hb, hst⟩ := scanState_succ_some argv n st h
    have h1 := ih s hs
    have h2 := loopBody_i_le argv s s2 hb
    subst hst
    simp only
    omega

theorem scanState_none_add (argv : List String) (n : Nat) (h : scanState argv n = none) :
    ∀ k, scanState argv (n + k) = none := by
  intro k
  induction k with
  | zero => exact h
  | succ k ih =>
    rw [← Nat.add_assoc]
    simp only [scanState, ih]

/-- After the last pass nothing is added to `lastValue`. -/
theorem lastValue_stable (argv : List String) (flag : String) (n : Nat) (st : ParseState)
    (h : scanState argv n = some st) (hle : argv.length ≤ st.i) :
    ∀ k, lastValue argv flag (n + k) = lastValue argv flag n := by
  have hnone : scanState argv (n + 1) = none := by
    have hn : ¬ st.i < argv.length := by omega
    simp only [scanState, h, hn, if_false]
  intro k
  induction k with
  | zero => rfl
  | succ k ih =>
    rw [← Nat.add_assoc]
    simp only [lastValue]
    cases k with
    | zero =>
      have hno : ¬ (argv[st.i]? = some flag ∧ st.i + 1 < argv.length) := by
        intro hc; omega
      simp only [Nat.add_zero, h, hno, if_false]
    | succ k =>
      have := scanState_none_add argv (n + 1) hnone k
      rw [Nat.add_assoc, Nat.add_comm 1 k] at this
      simp only [this]
      exact ih

theorem lastValue_all_passes (argv : List String) (flag : String) (n : Nat) (st : ParseState)
    (h : scanState argv n = some st) (hle : argv.length ≤ st.i) :
    lastValue argv flag argv.length = lastValue argv flag n := by
  have hn : n ≤ argv.length := by
    cases n with
    | zero => omega
    | succ n =>
      obtain ⟨s, _, hs, hlt, _, _⟩ := scanState_succ_some argv n st h
      have := scanState_i_ge argv n s hs
      omega
  have := lastValue_stable argv flag n st h hle (argv.length - n)
  rw [Nat.add_sub_cancel' hn] at this
  exact this

/-- In every state the scan reaches, each option holds the value given by
the last pass that met its flag, or its default. -/
theorem optionValues_of_scanState (argv : List String) : ∀ (n : Nat) (st : ParseState),
    scanState argv n = some st →
    st.port = ((lastValue argv "--port" n).map getPortNumber).getD 0 ∧
    st.serverAddress = (lastValue argv "--server-address" n).getD "127.0.0.1" ∧
    st.serverPort = ((lastValue argv "--server-port" n).map getPortNumber).getD 8080 := by
  intro n
  induction n with
  | zero =>
    intro st h
    simp only [scanState, Option.some.injEq] at h
    subst h
    exact ⟨rfl, rfl, rfl⟩
  | succ n ih =>
    intro st h
    obtain ⟨s, s2, hs, hlt, hb, hst⟩ := scanState_succ_some argv n st h
    obtain ⟨ihp, iha, ihsp⟩ := ih s hs
    obtain ⟨arg, harg, hcases⟩ := loopBody_next argv s s2 hb
    subst hst
    simp only [lastValue, hs, harg, Option.some.injEq]
    rcases hcases with ⟨v, ha, hv, _, hst⟩ | ⟨v, ha, hv, _, hst⟩ | ⟨v, ha, hv, _, hst⟩ |
      ⟨ha, hst⟩ | ⟨_, _, hchain⟩
    · have hl := lt_length_of_getElem? hv
      subst hst; subst ha
      simp [hl, hv, iha, ihsp]
    · have hl := lt_length_of_getElem? hv
      subst hst; subst ha
      simp [hl, hv, ihp, ihsp]
    · have hl := lt_length_of_getElem? hv
      subst hst; subst ha
      simp [hl, hv, ihp, iha]
    · subst hst; subst ha
      simp [ihp, iha, ihsp]
    · obtain ⟨h1, h2, h3⟩ := commandChain_next_options argv arg s s2 hchain
      have hfour := (commandChain_next_command argv arg _ s2 hchain).2
      have hn1 : arg ≠ "--port" := by
        rcases hfour with h | h | h | h <;> rw [h] <;> decide
      have hn2 : arg ≠ "--server-address" := by
        rcases hfour with h | h | h | h <;> rw [h] <;> decide
      have hn3 : arg ≠ "--server-port" := by
        rcases hfour with h | h | h | h <;> rw [h] <;> decide
      simp [hn1, hn2, hn3, h1, h2, h3, ihp, iha, ihsp]

/-- Claim C11: when the parse completes, the `Client` is constructed with
`port`, `serverAddress` and `serverPort` equal to the value given by the last
occurrence in flag position of `--port`, `--server-address` and
`--server-port` (read by `getPortNumber` for the two ports), and equal to the
defaults 0, `127.0.0.1` and 8080 when the flag does not occur; and a pass
that meets an option changes only that option's variable (and `i`), so no
other option value, nor the command and its argument list. -/
theorem C11_option_values_and_defaults (argv : List String) (st : ParseState)
    (hdone : forLoop argv argv.length initialState = .done st) :
    st.port = ((lastValue argv "--port" argv.length).map getPortNumber).getD 0 ∧
    st.serverAddress = (lastValue argv "--server-address" argv.length).getD "127.0.0.1" ∧
    st.serverPort = ((lastValue argv "--server-port" argv.length).map getPortNumber).getD 8080 ∧
    (∀ construct : Int → String → Int → Bool,
      main construct argv =
        if construct st.port st.serverAddress st.serverPort then execute st
        else earlyReturn 1) ∧
    (∀ (s s2 : ParseState) (v : String), loopBody argv s = .next s2 →
      argv[s.i + 1]? = some v →
      (argv[s.i]? = some "--port" → s2 = { s with port := getPortNumber v, i := s.i + 1 }) ∧
      (argv[s.i]? = some "--server-address" →
        s2 = { s with serverAddress := v, i := s.i + 1 }) ∧
      (argv[s.i]? = some "--server-port" →
        s2 = { s with serverPort := getPortNumber v, i := s.i + 1 })) := by
  obtain ⟨n, hn, hle⟩ := forLoop_done_reached argv argv.length 0 initialState st rfl hdone
  obtain ⟨hp, ha, hsp⟩ := optionValues_of_scanState argv n st hn
  rw [lastValue_all_passes argv "--port" n st hn hle,
    lastValue_all_passes argv "--server-address" n st hn hle,
    lastValue_all_passes argv "--server-port" n st hn hle]
  refine ⟨hp, ha, hsp, ?_, ?_⟩
  · intro construct
    simp only [main, hdone]
  · intro s s2 v hb hv
    have hl := lt_length_of_getElem? hv
    refine ⟨?_, ?_, ?_⟩ <;> intro harg <;>
      simp [loopBody, harg, hv, hl] at hb
    · split at hb
      · contradiction
      · simp only [Step.next.injEq] at hb
        exact hb.symm
    · split at hb
      · contradiction
      · contradiction
      · simp only [Step.next.injEq] at hb
        exact hb.symm
    · split at hb
      · contradiction
      · simp only [Step.next.injEq] at hb
        exact hb.symm

theorem C11_option_values_and_defaults_witness :
    forLoop ["client", "--port", "1", "--publish", "--port", "2", "--port", "3"] 8
        initialState =
      .done { initialState with
              i := 8, port := 3, command := "--publish", arguments := ["--port", "2"] } ∧
    (3 : Int) =
      ((lastValue ["client", "--port", "1", "--publish", "--port", "2", "--port", "3"]
        "--port" 8).map getPortNumber).getD 0 ∧
    "127.0.0.1" =
      (lastValue ["client", "--port", "1", "--publish", "--port", "2", "--port", "3"]
        "--server-address" 8).getD "127.0.0.1" :=
  ⟨by decide,
    (C11_option_values_and_defaults
      ["client", "--port", "1", "--publish", "--port", "2", "--port", "3"]
      { initialState with
        i := 8, port := 3, command := "--publish", arguments := ["--port", "2"] }
      (by decide)).1,
    (C11_option_values_and_defaults
      ["client", "--port", "1", "--publish", "--port", "2", "--port", "3"]
      { initialState with
        i := 8, port := 3, command := "--publish", arguments := ["--port", "2"] }
      (by decide)).2.1⟩

/-! ## The values of `command` -/

/-- What a pass does to `command`: a pass through the commands sets it to
the argument, one of the four commands, if it was empty; every other pass
leaves it alone. -/
theorem command_of_step (argv : List String) (st st2 : ParseState)
    (hb : loopBody argv st = .next st2) :
    st2.command = st.command ∨
      (st.command = "" ∧ argv[st.i]? = some st2.command ∧
        (st2.command = "--subscribe" ∨ st2.command = "--publish" ∨
          st2.command = "--list-topics" ∨ st2.command = "--get-topic-status") ∧
        ¬ ((st2.command = "--port" ∨ st2.command = "--server-address" ∨
            st2.command = "--server-port") ∧ st.i + 1 < argv.length)) := by
  obtain ⟨arg, harg, hcases⟩ := loopBody_next argv st st2 hb
  rcases hcases with ⟨v, _, _, _, hst⟩ | ⟨v, _, _, _, hst⟩ | ⟨v, _, _, _, hst⟩ |
    ⟨_, hst⟩ | ⟨_, _, hchain⟩
  · left; rw [hst]
  · left; rw [hst]
  · left; rw [hst]
  · left; rw [hst]
  · obtain ⟨hcmd, hfour⟩ := commandChain_next_command argv arg _ st2 hchain
    rw [setCommand_command] at hcmd
    by_cases hc : st.command = ""
    · right
      simp only [hc, if_true] at hcmd
      rw [hcmd]
      refine ⟨hc, harg, hfour, ?_⟩
      rintro ⟨h, _⟩
      rcases hfour with h4 | h4 | h4 | h4 <;> rw [h4] at h <;> revert h <;> decide
    · left
      simp only [hc, if_false] at hcmd
      exact hcmd

theorem isCommandOrEmpty_step (argv : List String) (st st2 : ParseState)
    (hinv : IsCommandOrEmpty st.command) (hb : loopBody argv st = .next st2) :
    IsCommandOrEmpty st2.command := by
  rcases command_of_step argv st st2 hb with h | ⟨_, _, hfour, _⟩
  · rw [h]; exact hinv
  · exact Or.inr hfour

/-- If `command` is not empty in a state the scan reaches, some pass met an
argument in command position. -/
theorem metCommandPosition_of_command (argv : List String) : ∀ (n : Nat) (st : ParseState),
    scanState argv n = some st → st.command ≠ "" → MetCommandPosition argv := by
  intro n
  induction n with
  | zero =>
    intro st h hne
    simp only [scanState, Option.some.injEq] at h
    subst h
    exact absurd rfl hne
  | succ n ih =>
    intro st h hne
    obtain ⟨s, s2, hs, _, hb, hst⟩ := scanState_succ_some argv n st h
    subst hst
    simp only at hne
    rcases command_of_step argv s s2 hb with hsame | ⟨_, harg, hfour, hnopt⟩
    · exact ih s hs (by rw [← hsame]; exact hne)
    · refine ⟨n, s, s2.command, hs, harg, ?_, ?_, hnopt⟩
      · rcases hfour with h4 | h4 | h4 | h4 <;> rw [h4] <;> decide
      · rcases hfour with h4 | h4 | h4 | h4 <;> rw [h4] <;> decide

/-- Claim C17: in every state the scan reaches (after every pass that does
not return), `command` is the empty string or one of `--subscribe`,
`--publish`, `--list-topics`, `--get-topic-status`; hence, when the parse
completes and the client is constructed, `main` takes the final
"No command provided or unknown" return of line 169 exactly when no pass
met an argument in command position, and then `command` is empty. -/
theorem C17_command_invariant (argv : List String) :
    (∀ (n : Nat) (s : ParseState), scanState argv n = some s → IsCommandOrEmpty s.command) ∧
    (∀ (construct : Int → String → Int → Bool) (st : ParseState),
      forLoop argv argv.length initialState = .done st →
      construct st.port st.serverAddress st.serverPort = true →
      IsCommandOrEmpty st.command ∧
      (main construct argv =
          .returned { exitCode := 1, client := some (st.port, st.serverAddress, st.serverPort),
                      calls := [], waited := false } ↔
        ¬ MetCommandPosition argv) ∧
      (¬ MetCommandPosition argv ↔ st.command = "")) := by
  have hreach : ∀ (n : Nat) (s : ParseState), scanState argv n = some s →
      IsCommandOrEmpty s.command :=
    scanState_induction argv (fun s => IsCommandOrEmpty s.command) (Or.inl rfl)
      (fun s s2 hinv _ hb => isCommandOrEmpty_step argv s s2 hinv hb)
  refine ⟨hreach, ?_⟩
  intro construct st hdone hcon
  obtain ⟨n, hn, hle⟩ := forLoop_done_reached argv argv.length 0 initialState st rfl hdone
  have hval := hreach n st hn
  have hP : PublishInv argv st := scanState_induction argv (PublishInv argv)
    (publishInv_initial argv) (fun s s2 hinv _ hb => publishInv_step argv s s2 hinv hb) n st hn
  -- `command` is empty exactly when no pass met an argument in command position
  have hempty : ¬ MetCommandPosition argv ↔ st.command = "" := by
    constructor
    · intro hno
      by_cases hc : st.command = ""
      · exact hc
      · exact absurd (metCommandPosition_of_command argv n st hn hc) hno
    · rintro hc ⟨n0, s, arg, hs, harg, hhelp, hdebug, hnopt⟩
      have hrest := forLoop_of_scanState argv n0 s hs
      rw [hdone] at hrest
      have hlt := lt_length_of_getElem? harg
      obtain ⟨f, hf⟩ : ∃ f, argv.length - s.i = f + 1 := ⟨argv.length - s.i - 1, by omega⟩
      rw [hf, forLoop_succ, if_pos hlt] at hrest
      cases hb : loopBody argv s with
      | ret code => simp [hb] at hrest
      | undefined u => simp [hb] at hrest
      | next s2 =>
        simp only [hb] at hrest
        have hs2 : s2.command ≠ "" := by
          obtain ⟨arg2, harg2, hcases⟩ := loopBody_next argv s s2 hb
          rw [harg] at harg2
          simp only [Option.some.injEq] at harg2
          subst harg2
          rcases hcases with ⟨v, ha, hv, _⟩ | ⟨v, ha, hv, _⟩ | ⟨v, ha, hv, _⟩ |
            ⟨ha, _⟩ | ⟨_, _, hchain⟩
          · exact absurd ⟨Or.inl ha, lt_length_of_getElem? hv⟩ hnopt
          · exact absurd ⟨Or.inr (Or.inl ha), lt_length_of_getElem? hv⟩ hnopt
          · exact absurd ⟨Or.inr (Or.inr ha), lt_length_of_getElem? hv⟩ hnopt
          · exact absurd ha hdebug
          · obtain ⟨hcmd, hfour⟩ := commandChain_next_command argv arg _ s2 hchain
            rw [hcmd, setCommand_command]
            split
            · rcases hfour with h4 | h4 | h4 | h4 <;> rw [h4] <;> decide
            · rename_i hne; exact hne
        have hkeep := forLoop_done_induction argv (fun x => x.command = s2.command)
          (fun x x2 hx _ hbx => by
            have hxne : x.command ≠ "" := by rw [hx]; exact hs2
            simp only
            rw [command_step argv x x2 hbx hxne, hx]) f
          { s2 with i := s2.i + 1 } st rfl hrest.symm
        have hkeep2 : st.command = s2.command := hkeep
        rw [hc] at hkeep2
        exact hs2 hkeep2.symm
  refine ⟨hval, ?_, hempty⟩
  rw [hempty]
  simp only [main, hdone, hcon, if_true, execute]
  constructor
  · intro hret
    rcases hval with h | h | h | h | h
    · exact h
    · simp [h, finish] at hret
    · obtain ⟨k, t, m, _, _, _, _, _, _, hargs⟩ := hP.2.2 h
      simp [h, hargs, finish] at hret
    · simp [h, finish] at hret
    · simp [h, finish] at hret
  · intro hc
    simp [hc]

theorem C17_command_invariant_witness :
    scanState ["client", "--debug", "--port", "81"] 2 =
      some { initialState with i := 4, port := 81, debug := true } ∧
    IsCommandOrEmpty "" :=
  ⟨by decide,
    (C17_command_invariant ["client", "--debug", "--port", "81"]).1 2
      { initialState with i := 4, port := 81, debug := true } (by decide)⟩

/-! ## Decimal numerals are read back -/

theorem digitChar_facts : ∀ k, k < 10 →
    (Nat.digitChar k).isDigit = true ∧ digitVal (Nat.digitChar k) = k := by
  decide

/-- The digits that `Nat.toDigitsCore` puts in front of `ds`: a non-empty run
of decimal digits whose value is `n`. -/
theorem toDigitsCore_spec : ∀ (fuel n : Nat) (ds : List Char), n < fuel →
    ∃ pre : List Char, Nat.toDigitsCore 10 fuel n ds = pre ++ ds ∧ pre ≠ [] ∧
      (∀ c ∈ pre, c.isDigit = true) ∧
      ∀ acc : Nat, pre.foldl (fun acc c => 10 * acc + digitVal c) acc =
        acc * 10 ^ pre.length + n := by
  intro fuel
  induction fuel with
  | zero => intro n ds h; omega
  | succ fuel ih =>
    intro n ds h
    have hd := digitChar_facts (n % 10) (Nat.mod_lt n (by decide))
    simp only [Nat.toDigitsCore]
    split
    · rename_i h0
      refine ⟨[Nat.digitChar (n % 10)], rfl, by simp, ?_, ?_⟩
      · intro c hc
        simp only [List.mem_singleton] at hc
        rw [hc]; exact hd.1
      · intro acc
        simp only [List.foldl_cons, List.foldl_nil, hd.2, List.length_singleton, pow_one]
        omega
    · rename_i h0
      have hlt : n / 10 < fuel := by omega
      obtain ⟨pre, hpre, hne, hdig, hval⟩ := ih (n / 10) (Nat.digitChar (n % 10) :: ds) hlt
      refine ⟨pre ++ [Nat.digitChar (n % 10)], by rw [hpre]; simp, by simp, ?_, ?_⟩
      · intro c hc
        rcases List.mem_append.1 hc with hc | hc
        · exact hdig c hc
        · simp only [List.mem_singleton] at hc
          rw [hc]; exact hd.1
      · intro acc
        simp only [List.foldl_append, List.foldl_cons, List.foldl_nil, hval, hd.2,
          List.length_append, List.length_singleton, pow_succ]
        have := Nat.div_add_mod n 10
        nlinarith [Nat.div_add_mod n 10]

/-- The decimal numeral of `n` is a non-empty run of digits of value `n`. -/
theorem repr_spec (n : Nat) :
    (Nat.repr n).data ≠ [] ∧ (∀ c ∈ (Nat.repr n).data, c.isDigit = true) ∧
      digitsVal (Nat.repr n).data = n := by
  obtain ⟨pre, hpre, hne, hdig, hval⟩ := toDigitsCore_spec (n + 1) n [] (by omega)
  have hdata : (Nat.repr n).data = pre := by
    show Nat.toDigitsCore 10 (n + 1) n [] = pre
    rw [hpre]; simp
  rw [hdata]
  refine ⟨hne, hdig, ?_⟩
  have := hval 0
  simpa [digitsVal] using this

/-- On a non-empty run of decimal digits `stoi` returns its value, provided
it fits an `int`. -/
theorem stoi_digits (ds : List Char) (hne : ds ≠ []) (hdig : ∀ c ∈ ds, c.isDigit = true)
    (hfit : digitsVal ds ≤ 2147483647) : stoi (String.mk ds) = .ok (digitsVal ds : Int) := by
  cases ds with
  | nil => exact absurd rfl hne
  | cons c cs =>
    obtain ⟨h1, h2, h3, _⟩ := isDigit_not_space c (hdig c (by simp))
    have hdrop : (c :: cs).dropWhile isSpace = c :: cs := by
      simp [List.dropWhile, h1]
    have hsign : stripSign (c :: cs) = (false, c :: cs) := by
      simp [stripSign, h2, h3]
    have htake : (c :: cs).takeWhile Char.isDigit = c :: cs :=
      List.takeWhile_eq_self_iff.2 hdig
    simp only [stoi, hdrop, hsign, htake]
    simp only [signedVal, Bool.false_eq_true, if_false]
    have : ¬ (((digitsVal (c :: cs) : Nat) : Int) < -2147483648 ∨
        ((digitsVal (c :: cs) : Nat) : Int) > 2147483647) := by omega
    rw [if_neg this, if_neg (by simp)]

/-- Claim C14: for every integer `n` in `0..65535`, `getPortNumber` applied to
the decimal numeral of `n` returns `n`. -/
theorem C14_valid_port_accepted (n : Nat) (h : n ≤ 65535) :
    getPortNumber (Nat.repr n) = (n : Int) := by
  obtain ⟨hne, hdig, hval⟩ := repr_spec n
  have hs : stoi (Nat.repr n) = .ok (n : Int) := by
    have := stoi_digits (Nat.repr n).data hne hdig (by rw [hval]; omega)
    rw [hval] at this
    exact this
  simp only [getPortNumber, hs]
  have : ¬ ((n : Int) > 65535 ∨ (n : Int) < 0) := by omega
  rw [if_neg this]

theorem C14_valid_port_accepted_witness :
    getPortNumber (Nat.repr 0) = 0 ∧ getPortNumber (Nat.repr 65535) = 65535 ∧
      getPortNumber (Nat.repr 8080) = 8080 :=
  ⟨C14_valid_port_accepted 0 (by decide), C14_valid_port_accepted 65535 (by decide),
    C14_valid_port_accepted 8080 (by decide)⟩

/-! ## Every dotted quad is accepted -/

theorem takeWhile_dropWhile_field (f rest : List Char) (hdot : '.' ∉ f) :
    (f ++ '.' :: rest).takeWhile (fun c => c != '.') = f ∧
    (f ++ '.' :: rest).dropWhile (fun c => c != '.') = '.' :: rest := by
  induction f with
  | nil => simp
  | cons c cs ih =>
    have hc : c ≠ '.' := fun h => hdot (by simp [h])
    have hcs : '.' ∉ cs := fun h => hdot (by simp [h])
    obtain ⟨h1, h2⟩ := ih hcs
    have hb : (c != '.') = true := by simpa using hc
    rw [List.cons_append, List.takeWhile_cons, List.dropWhile_cons, hb, h1, h2]
    simp

theorem getline_field_dot (f rest : List Char) (hdot : '.' ∉ f) :
    getline (f ++ '.' :: rest) '.' = some (f, rest) := by
  obtain ⟨h1, h2⟩ := takeWhile_dropWhile_field f rest hdot
  cases hfr : f ++ '.' :: rest with
  | nil => simp at hfr
  | cons x xs =>
    rw [hfr] at h1 h2
    simp only [getline, h1, h2, List.tail_cons]

theorem getline_field_end (f : List Char) (hne : f ≠ []) (hdot : '.' ∉ f) :
    getline f '.' = some (f, []) := by
  have h1 : f.takeWhile (fun c => c != '.') = f := by
    apply List.takeWhile_eq_self_iff.2
    intro c hc
    have : c ≠ '.' := fun h => hdot (h ▸ hc)
    simpa using this
  have h2 : f.dropWhile (fun c => c != '.') = [] := by
    apply List.dropWhile_eq_nil_iff.2
    intro c hc
    have : c ≠ '.' := fun h => hdot (h ▸ hc)
    simpa using this
  cases hf : f with
  | nil => exact absurd hf hne
  | cons x xs =>
    rw [hf] at h1 h2
    simp only [getline, h1, h2, List.tail_nil]

theorem plainOctet_facts (f : List Char) (h : PlainOctet f) :
    '.' ∉ f ∧ stoi (String.mk f) = .ok (digitsVal f : Int) ∧
      ¬ (((digitsVal f : Nat) : Int) < 0 ∨ ((digitsVal f : Nat) : Int) > 255) := by
  obtain ⟨hne, hdig, hval⟩ := h
  refine ⟨?_, stoi_digits f hne hdig (by omega), by omega⟩
  intro hmem
  exact (isDigit_not_space '.' (hdig '.' hmem)).2.2.2 rfl

/-- The `getline` loop counts every field of a text made of plain octets
joined by dots. -/
theorem octetLoop_joinDots : ∀ (fs : List (List Char)), (∀ f ∈ fs, PlainOctet f) →
    ∀ (fuel n : Nat), fs.length < fuel →
    octetLoop fuel (joinDots fs) n = some (some (n + fs.length)) := by
  intro fs
  induction fs with
  | nil =>
    intro _ fuel n hfuel
    obtain ⟨k, rfl⟩ : ∃ k, fuel = k + 1 := ⟨fuel - 1, by simp at hfuel; omega⟩
    simp [octetLoop, joinDots, getline]
  | cons f fs ih =>
    intro hall fuel n hfuel
    obtain ⟨k, rfl⟩ : ∃ k, fuel = k + 1 := ⟨fuel - 1, by omega⟩
    obtain ⟨hdot, hstoi, hrange⟩ := plainOctet_facts f (hall f (by simp))
    have hne : f ≠ [] := (hall f (by simp)).1
    have hih := ih (fun g hg => hall g (by simp [hg])) k (n + 1)
      (by simp only [List.length_cons] at hfuel; omega)
    cases fs with
    | nil =>
      simp only [joinDots, octetLoop, getline_field_end f hne hdot, hstoi]
      rw [if_neg hrange]
      simpa [joinDots] using hih
    | cons g gs =>
      simp only [joinDots, octetLoop, getline_field_dot f _ hdot, hstoi]
      rw [if_neg hrange, hih]
      simp only [List.length_cons]
      congr 2
      omega

theorem repr_plainOctet (a : Nat) (h : a ≤ 255) : PlainOctet (Nat.repr a).data := by
  obtain ⟨hne, hdig, hval⟩ := repr_spec a
  exact ⟨hne, hdig, by rw [hval]; exact h⟩

theorem dottedQuad_data (a b c d : Nat) :
    (dottedQuad a b c d).data =
      joinDots [(Nat.repr a).data, (Nat.repr b).data, (Nat.repr c).data, (Nat.repr d).data] := by
  simp [dottedQuad, joinDots]

/-- Claim C13: for all integers `a`, `b`, `c`, `d` in `0..255`,
`isValidIPv4Address` applied to their decimal numerals joined with `'.'`
returns true. -/
theorem C13_valid_dotted_quad_accepted (a b c d : Nat)
    (ha : a ≤ 255) (hb : b ≤ 255) (hc : c ≤ 255) (hd : d ≤ 255) :
    isValidIPv4Address (dottedQuad a b c d) = .ok true := by
  have hA := repr_plainOctet a ha
  have hB := repr_plainOctet b hb
  have hC := repr_plainOctet c hc
  have hD := repr_plainOctet d hd
  have hdata := dottedQuad_data a b c d
  have hall : ∀ f ∈ [(Nat.repr a).data, (Nat.repr b).data, (Nat.repr c).data,
      (Nat.repr d).data], PlainOctet f := by
    intro f hf
    simp only [List.mem_cons, List.mem_singleton, List.not_mem_nil, or_false] at hf
    rcases hf with h | h | h | h <;> rw [h] <;> assumption
  -- the last character is the last digit of `d`
  obtain ⟨last, hlast⟩ : ∃ last, (Nat.repr d).data.getLast? = some last := by
    cases h : (Nat.repr d).data.getLast? with
    | none => exact absurd (List.getLast?_eq_none_iff.1 h) hD.1
    | some x => exact ⟨x, rfl⟩
  have hlastdig : last ≠ '.' := by
    have hmem : last ∈ (Nat.repr d).data := List.mem_of_getLast?_eq_some hlast
    exact (isDigit_not_space last (hD.2.1 last hmem)).2.2.2
  have hback : (dottedQuad a b c d).data.getLast? = some last := by
    rw [hdata]
    simp only [joinDots]
    rw [List.getLast?_append, List.getLast?_cons, List.getLast?_append, List.getLast?_cons,
      List.getLast?_append, List.getLast?_cons, hlast]
    simp
  have hlen : [(Nat.repr a).data, (Nat.repr b).data, (Nat.repr c).data,
      (Nat.repr d).data].length < (dottedQuad a b c d).length + 1 := by
    have : (dottedQuad a b c d).length = (dottedQuad a b c d).data.length := rfl
    have hpos := List.length_pos.2 hD.1
    rw [this, hdata]
    simp only [joinDots, List.length_append, List.length_cons, List.length_nil]
    omega
  have hloop := octetLoop_joinDots _ hall ((dottedQuad a b c d).length + 1) 0 hlen
  rw [← hdata] at hloop
  simp only [isValidIPv4Address, hback, hloop, if_neg hlastdig]
  simp

theorem C13_valid_dotted_quad_accepted_witness :
    dottedQuad 127 0 0 1 = "127.0.0.1" ∧ isValidIPv4Address (dottedQuad 127 0 0 1) = .ok true :=
  ⟨by decide, C13_valid_dotted_quad_accepted 127 0 0 1 (by decide) (by decide) (by decide)
    (by decide)⟩

/-! ## Shape of an accepted address -/

theorem splitDots_no_dot (f : List Char) (hdot : '.' ∉ f) : splitDots f = [f] := by
  induction f with
  | nil => rfl
  | cons c cs ih =>
    have hc : c ≠ '.' := fun h => hdot (by simp [h])
    have hcs : '.' ∉ cs := fun h => hdot (by simp [h])
    simp [splitDots, hc, ih hcs]

theorem splitDots_field (f rest : List Char) (hdot : '.' ∉ f) :
    splitDots (f ++ '.' :: rest) = f :: splitDots rest := by
  induction f with
  | nil => simp [splitDots]
  | cons c cs ih =>
    have hc : c ≠ '.' := fun h => hdot (by simp [h])
    have hcs : '.' ∉ cs := fun h => hdot (by simp [h])
    simp [splitDots, hc, ih hcs]

/-- Claim C18: if `isValidIPv4Address s` returns true (so `s` is not empty),
then `s` contains exactly three `'.'` characters, does not end with `'.'`,
and has four `'.'`-separated fields, each of which starts (after optional
leading white space and an optional sign, as `std::stoi` reads) with a
decimal integer whose value is in `0..255`. -/
theorem C18_three_dots_four_numeral_fields (s : String)
    (h : isValidIPv4Address s = .ok true) :
    s ≠ "" ∧ s.data.count '.' = 3 ∧ s.data.getLast? ≠ some '.' ∧
    ∃ a b c d : List Char, splitDots s.data = [a, b, c, d] ∧
      ∀ f ∈ [a, b, c, d], ∃ v : Nat, v ≤ 255 ∧ StartsWithNumeral f v := by
  obtain ⟨a, b, c, d, hdata, ⟨ha, hA⟩, ⟨hb, hB⟩, ⟨hc, hC⟩, ⟨hd, hD⟩⟩ :=
    accepted_address_fields s h
  refine ⟨?_, ?_, ?_, a, b, c, d, ?_, ?_⟩
  · rintro rfl
    simp at hdata
  · rw [hdata]
    simp only [List.count_append, List.count_cons, List.count_eq_zero_of_not_mem ha,
      List.count_eq_zero_of_not_mem hb, List.count_eq_zero_of_not_mem hc,
      List.count_eq_zero_of_not_mem hd]
    simp
  · intro hl
    simp only [isValidIPv4Address, hl] at h
    simp at h
  · rw [hdata, splitDots_field a _ ha, splitDots_field b _ hb, splitDots_field c _ hc,
      splitDots_no_dot d hd]
  · intro f hf
    simp only [List.mem_cons, List.mem_singleton, List.not_mem_nil, or_false] at hf
    rcases hf with rfl | rfl | rfl | rfl
    · exact hA
    · exact hB
    · exact hC
    · exact hD

theorem C18_three_dots_four_numeral_fields_witness :
    isValidIPv4Address " 10.+0.-0.255 x" = .ok true ∧
    " 10.+0.-0.255 x" ≠ "" ∧ " 10.+0.-0.255 x".data.count '.' = 3 ∧
    " 10.+0.-0.255 x".data.getLast? ≠ some '.' ∧
    ∃ a b c d : List Char, splitDots " 10.+0.-0.255 x".data = [a, b, c, d] ∧
      ∀ f ∈ [a, b, c, d], ∃ v : Nat, v ≤ 255 ∧ StartsWithNumeral f v :=
  ⟨by decide, C18_three_dots_four_numeral_fields " 10.+0.-0.255 x" (by decide)⟩

/-! ## Reads outside a string -/

theorem isValidIPv4Address_error (v : String) (u : UB) (h : isValidIPv4Address v = .error u) :
    u = .emptyBack ∧ v = "" := by
  simp only [isValidIPv4Address] at h
  split at h
  · rename_i hl
    simp only [Except.error.injEq] at h
    refine ⟨h.symm, ?_⟩
    have hd : v.data = [] := List.getLast?_eq_none_iff.1 hl
    exact String.ext hd
  · repeat' split at h
    all_goals contradiction

theorem topicCond_error (a : String) (u : UB) (h : topicCond a = .error u) :
    u = .pastTerminator ∧ a = "" := by
  have h0 : ∃ c, cstrAt a 0 = .ok c := by
    simp only [cstrAt]
    cases hd : a.data with
    | nil => exact ⟨'\x00', by simp⟩
    | cons c cs => exact ⟨c, by simp⟩
  obtain ⟨c0, hc0⟩ := h0
  simp only [topicCond, hc0] at h
  split at h
  · cases h1 : cstrAt a 1 with
    | ok c1 => simp [h1] at h
    | error u1 =>
      simp only [h1, Except.error.injEq] at h
      subst h
      simp only [cstrAt] at h1
      split at h1
      · contradiction
      · rename_i hnone
        split at h1
        · contradiction
        · rename_i hlen
          simp only [Except.error.injEq] at h1
          refine ⟨h1.symm, ?_⟩
          have hle : a.data.length ≤ 1 := by
            rcases Nat.lt_or_ge 1 a.data.length with hlt | hge
            · rw [List.getElem?_eq_getElem hlt] at hnone
              contradiction
            · exact hge
          have hd : a.data = [] := List.length_eq_zero.1 (by omega)
          exact String.ext hd
  · contradiction

theorem topicLoop_error (b : Bool) : ∀ (l : List String) (st : ParseState) (u : UB),
    topicLoop b l st = .error u → u = .pastTerminator ∧ "" ∈ l := by
  intro l
  induction l with
  | nil => intro st u h; simp [topicLoop] at h
  | cons a l ih =>
    intro st u h
    simp only [topicLoop] at h
    split at h
    · rename_i u2 hc
      simp only [Except.error.injEq] at h
      subst h
      obtain ⟨h1, h2⟩ := topicCond_error a u2 hc
      exact ⟨h1, by simp [h2]⟩
    · contradiction
    · obtain ⟨h1, h2⟩ := ih _ u h
      exact ⟨h1, by simp [h2]⟩

/-- A pass leaves defined behaviour only through an empty-string argument:
`back()` on an empty `--server-address` value, or the second character of an
empty argument in a topic loop.  No index of `argv` is ever out of range. -/
theorem loopBody_undefined (argv : List String) (st : ParseState) (u : UB)
    (hlt : st.i < argv.length) (h : loopBody argv st = .undefined u) :
    (u = .emptyBack ∨ u = .pastTerminator) ∧ "" ∈ argv := by
  simp only [loopBody] at h
  split at h
  · rename_i hnone
    rw [List.getElem?_eq_getElem hlt] at hnone
    contradiction
  · rename_i arg harg
    have getNext : ∀ {k : Nat}, k < argv.length → argv[k]? ≠ none := by
      intro k hk hnone
      rw [List.getElem?_eq_getElem hk] at hnone
      contradiction
    split at h
    · rename_i hc
      split at h
      · rename_i hnone; exact absurd hnone (getNext hc.2)
      · split at h <;> contradiction
    · split at h
      · rename_i hc
        split at h
        · rename_i hnone; exact absurd hnone (getNext hc.2)
        · rename_i v hv
          split at h
          · rename_i u2 herr
            simp only [Step.undefined.injEq] at h
            subst h
            obtain ⟨h1, h2⟩ := isValidIPv4Address_error v u2 herr
            refine ⟨Or.inl h1, ?_⟩
            rw [← h2]
            exact List.getElem?_mem hv
          · contradiction
          · contradiction
      · split at h
        · rename_i hc
          split at h
          · rename_i hnone; exact absurd hnone (getNext hc.2)
          · split at h <;> contradiction
        · split at h
          · contradiction
          · split at h
            · contradiction
            · simp only [commandBlock, commandChain] at h
              split at h
              · split at h
                · contradiction
                · rename_i u2 herr
                  simp only [Step.undefined.injEq] at h
                  subst h
                  obtain ⟨h1, h2⟩ := topicLoop_error _ _ _ _ herr
                  exact ⟨Or.inr h1, List.mem_of_mem_drop h2⟩
              · split at h
                · rename_i hc
                  rw [setCommand_i] at hc
                  split at h
                  · contradiction
                  · rename_i hno
                    have hA : argv[st.i + 1]? ≠ none := getNext (by omega)
                    have hB : argv[st.i + 2]? ≠ none := getNext (by omega)
                    rw [setCommand_i] at hno
                    cases hx : argv[st.i + 1]? with
                    | none => exact absurd hx hA
                    | some x =>
                      cases hy : argv[st.i + 2]? with
                      | none => exact absurd hy hB
                      | some y =>
                        have hxy : argv[st.i + 1]? = some x → ¬ argv[st.i + 2]? = some y := by
                          simpa using hno x y
                        exact absurd hy (hxy hx)
                · split at h
                  · contradiction
                  · split at h
                    · split at h
                      · contradiction
                      · rename_i u2 herr
                        simp only [Step.undefined.injEq] at h
                        subst h
                        obtain ⟨h1, h2⟩ := topicLoop_error _ _ _ _ herr
                        exact ⟨Or.inr h1, List.mem_of_mem_drop h2⟩
                    · contradiction

theorem forLoop_undefined (argv : List String) : ∀ (fuel : Nat) (st : ParseState) (u : UB),
    forLoop argv fuel st = .undefined u →
    (u = .emptyBack ∨ u = .pastTerminator) ∧ "" ∈ argv := by
  intro fuel
  induction fuel with
  | zero =>
    intro st u h
    simp only [forLoop] at h
    split at h <;> contradiction
  | succ fuel ih =>
    intro st u h
    rw [forLoop_succ] at h
    split at h
    · rename_i hlt
      cases hb : loopBody argv st with
      | next st2 =>
        simp only [hb] at h
        exact ih _ u h
      | ret code => simp [hb] at h
      | undefined u2 =>
        simp only [hb, Scan.undefined.injEq] at h
        subst h
        exact loopBody_undefined argv st u2 hlt hb
    · contradiction

/-- The part of claim C19 that holds: `main` leaves defined behaviour only
through `back()` on an empty string or a read past the terminator of an
argument, and only when some argument is the empty string.  In particular no
access `argv[i + 1]`, `argv[i + 2]` is out of range, and `front()`/`back()`
are never applied to an empty argument list. -/
theorem main_undefined (construct : Int → String → Int → Bool) (argv : List String) (u : UB)
    (h : main construct argv = .undefined u) :
    (u = .emptyBack ∨ u = .pastTerminator) ∧ "" ∈ argv := by
  simp only [main] at h
  cases hloop : forLoop argv argv.length initialState with
  | ret code => simp [hloop, earlyReturn] at h
  | outOfFuel => simp [hloop] at h
  | undefined u2 =>
    simp only [hloop, Outcome.undefined.injEq] at h
    subst h
    exact forLoop_undefined argv _ _ _ hloop
  | done st =>
    obtain ⟨hP, _⟩ := parse_done_induction argv (PublishInv argv) (publishInv_initial argv)
      (fun s s2 hinv _ hb => publishInv_step argv s s2 hinv hb) st hloop
    simp only [hloop] at h
    split at h
    · simp only [execute, finish] at h
      split at h
      · contradiction
      · split at h
        · rename_i hc
          obtain ⟨k, t, m, _, _, _, _, _, _, hargs⟩ := hP.2.2 hc
          simp [hargs] at h
        · repeat' split at h
          all_goals contradiction
    · simp [earlyReturn] at h

/-- Claim C19 fails on the code for arguments that are the empty string:
`client --server-address ""` applies `back()` to the empty string, and
`client --subscribe ""` (or an empty argument after a topic of
`--get-topic-status`) reads `argv[i + 1][1]`, one past the terminator of the
empty argument. -/
theorem C19_empty_argument_undefined :
    isValidIPv4Address "" = .error .emptyBack ∧
    main connects ["client", "--server-address", ""] = .undefined .emptyBack ∧
    topicCond "" = .error .pastTerminator ∧
    main connects ["client", "--subscribe", ""] = .undefined .pastTerminator ∧
    main connects ["client", "--get-topic-status", "t", ""] = .undefined .pastTerminator := by
  decide

/-! ## `SendMessage` -/

/-- Claim C15 fails as stated: `SendMessage` is declared `void`, so a call
hands no status code back to its caller. -/
theorem C15_counterexample :
    (ClientConnection.SendMessage { address := "127.0.0.1", port := 8080, socket := 3 }
      "hello" 0).returned ≠ some 0 := by
  decide

/-- Claim C15, as the declaration has it: for every message and timestamp,
`SendMessage` hands nothing back to its caller, and the status code it sends
to the client with the message and the timestamp is 0 (successful). -/
theorem C15_sent_status_code_zero (conn : ClientConnection) (message : String)
    (timestamp : Int) :
    (conn.SendMessage message timestamp).returned = none ∧
    (conn.SendMessage message timestamp).sent.statusCode = 0 ∧
    (conn.SendMessage message timestamp).sent.message = message ∧
    (conn.SendMessage message timestamp).sent.timestamp = timestamp :=
  ⟨rfl, rfl, rfl, rfl⟩

/-! ## Idempotent subscription -/

theorem lookup_update (f : Topic → Topic) (hf : ∀ t, (f t).name = t.name) (name : String) :
    ∀ (reg : TopicRegistry) (name2 : String),
    (reg.update name f).lookup name2 =
      if name2 = name then some (f ((reg.lookup name).getD (Topic.empty name)))
      else reg.lookup name2 := by
  intro reg
  induction reg with
  | nil =>
    intro name2
    have he : (f (Topic.empty name)).name = name := by rw [hf]; rfl
    by_cases h : name2 = name
    · simp [TopicRegistry.update, TopicRegistry.lookup, he, h]
    · have h2 : ¬ name = name2 := fun x => h x.symm
      simp [TopicRegistry.update, TopicRegistry.lookup, he, h, h2]
  | cons t ts ih =>
    intro name2
    by_cases ht : t.name = name
    · by_cases h : name2 = name
      · simp [TopicRegistry.update, TopicRegistry.lookup, ht, hf, h]
      · have h2 : ¬ name = name2 := fun x => h x.symm
        simp [TopicRegistry.update, TopicRegistry.lookup, ht, hf, h, h2]
    · by_cases h : name2 = name
      · simp [TopicRegistry.update, TopicRegistry.lookup, ht, h, ih]
      · by_cases h3 : t.name = name2
        · simp [TopicRegistry.update, TopicRegistry.lookup, ht, h, h3]
        · simp [TopicRegistry.update, TopicRegistry.lookup, ht, h, h3, ih]

theorem addSubscriber_name (handle : ConnId) (t : Topic) :
    (t.addSubscriber handle).name = t.name := by
  unfold Topic.addSubscriber; split <;> rfl

theorem subscribersOf_subscribe_one (reg : TopicRegistry) (handle : ConnId) (name : String) :
    (Broker.subscribe reg handle [name]).subscribersOf name =
      if handle ∈ reg.subscribersOf name then reg.subscribersOf name
      else reg.subscribersOf name ++ [handle] := by
  simp only [Broker.subscribe, List.foldl_cons, List.foldl_nil, TopicRegistry.subscribersOf]
  rw [lookup_update _ (addSubscriber_name handle) name reg name]
  cases hl : reg.lookup name with
  | none =>
    simp [Topic.addSubscriber, Topic.empty]
  | some t =>
    simp only [if_true, Option.getD_some, Option.map_some', Topic.addSubscriber]
    split <;> rfl

theorem subscribersOf_update_add (reg : TopicRegistry) (handle : ConnId)
    (name name2 : String) :
    (reg.update name (fun t => t.addSubscriber handle)).subscribersOf name2 =
      if name2 = name then
        (if handle ∈ reg.subscribersOf name then reg.subscribersOf name
          else reg.subscribersOf name ++ [handle])
      else reg.subscribersOf name2 := by
  simp only [TopicRegistry.subscribersOf]
  rw [lookup_update _ (addSubscriber_name handle) name reg name2]
  by_cases h : name2 = name
  · simp only [h, if_true]
    cases hl : reg.lookup name with
    | none => simp [Topic.addSubscriber, Topic.empty]
    | some t =>
      simp only [Option.getD_some, Option.map_some', Topic.addSubscriber]
      split <;> rfl
  · simp [h]

/-- A subscribe keeps the members of every subscriber set, and keeps them
unique. -/
theorem subscribe_keeps (handle : ConnId) (name : String) : ∀ (topicNames : List String)
    (reg : TopicRegistry),
    ((reg.subscribersOf name).Nodup →
      ((Broker.subscribe reg handle topicNames).subscribersOf name).Nodup) ∧
    (∀ x, x ∈ reg.subscribersOf name →
      x ∈ (Broker.subscribe reg handle topicNames).subscribersOf name) := by
  intro topicNames
  induction topicNames with
  | nil => intro reg; exact ⟨id, fun _ h => h⟩
  | cons n ns ih =>
    intro reg
    have hstep := subscribersOf_update_add reg handle n name
    obtain ⟨ih1, ih2⟩ := ih (reg.update n (fun t => t.addSubscriber handle))
    simp only [Broker.subscribe, List.foldl_cons] at ih1 ih2 ⊢
    constructor
    · intro hn
      apply ih1
      rw [hstep]
      split
      · rename_i heq
        subst heq
        split
        · exact hn
        · rename_i hm
          exact List.Nodup.append hn (List.nodup_singleton handle)
            (by
              intro x hx hx2
              simp only [List.mem_singleton] at hx2
              exact hm (hx2 ▸ hx))
      · exact hn
    · intro x hx
      apply ih2
      rw [hstep]
      split
      · rename_i heq
        subst heq
        split
        · exact hx
        · exact List.mem_append_left _ hx
      · exact hx

theorem lookup_map (g : Topic → Topic) (hg : ∀ t, (g t).name = t.name) :
    ∀ (reg : TopicRegistry) (name : String),
    TopicRegistry.lookup (reg.map g) name = (reg.lookup name).map g := by
  intro reg
  induction reg with
  | nil => intro name; rfl
  | cons t ts ih =>
    intro name
    simp only [List.map_cons, TopicRegistry.lookup, hg]
    split
    · rfl
    · exact ih name

theorem subscribersOf_disconnect (reg : TopicRegistry) (handle : ConnId) (name : String) :
    (Broker.disconnect reg handle).subscribersOf name =
      (reg.subscribersOf name).filter (fun h => h != handle) := by
  simp only [TopicRegistry.subscribersOf, Broker.disconnect]
  rw [lookup_map (fun t => t.removeSubscriber handle) (fun t => rfl)]
  cases reg.lookup name with
  | none => rfl
  | some t => rfl

/-- Disconnecting a list of handles removes exactly these handles from every
subscriber set. -/
theorem subscribersOf_disconnect_all (name : String) : ∀ (failed : List ConnId)
    (reg : TopicRegistry),
    (failed.foldl Broker.disconnect reg).subscribersOf name =
      (reg.subscribersOf name).filter (fun h => decide (h ∉ failed)) := by
  intro failed
  induction failed with
  | nil => intro reg; simp
  | cons f fs ih =>
    intro reg
    rw [List.foldl_cons, ih, subscribersOf_disconnect, List.filter_filter]
    apply List.filter_congr
    intro x _
    by_cases h1 : x = f
    · simp [h1]
    · by_cases h2 : x ∈ fs
      · simp [h1, h2]
      · simp [h1, h2]

/-- Recording a publish in a topic changes no subscriber set. -/
theorem subscribersOf_published (send : ConnId → String → Int → Int) (reg : TopicRegistry)
    (topicName payload : String) (timestamp : Int) (name : String) :
    (reg.update topicName (fun t => (t.publish send payload timestamp).1)).subscribersOf name =
      reg.subscribersOf name := by
  simp only [TopicRegistry.subscribersOf]
  rw [lookup_update (fun t => (t.publish send payload timestamp).1) (fun t => rfl) topicName
    reg name]
  by_cases h : name = topicName
  · subst h
    cases hl : reg.lookup name with
    | none => simp [Topic.publish, Topic.empty]
    | some t => simp [Topic.publish]
  · simp [h]

/-- The report of a publish: one send for each entry of the subscriber set of
the topic. -/
theorem report_publish (send : ConnId → String → Int → Int) (reg : TopicRegistry)
    (topicName payload : String) (timestamp : Int) :
    (Broker.publish send reg topicName payload timestamp).report =
      (reg.subscribersOf topicName).map (fun h => (h, send h payload timestamp)) := by
  have h2 : reg.subscribersOf topicName =
      ((reg.lookup topicName).getD (Topic.empty topicName)).subscribers := by
    simp only [TopicRegistry.subscribersOf]
    cases reg.lookup topicName <;> rfl
  rw [h2]
  rfl

/-- After a publish every subscriber set has lost exactly the handles whose
send failed. -/
theorem subscribersOf_publish (send : ConnId → String → Int → Int) (reg : TopicRegistry)
    (topicName payload : String) (timestamp : Int) (name : String) :
    (Broker.publish send reg topicName payload timestamp).registry.subscribersOf name =
      (reg.subscribersOf name).filter (fun h =>
        decide (h ∉ failedHandles (Broker.publish send reg topicName payload timestamp).report)) := by
  have hreg : (Broker.publish send reg topicName payload timestamp).registry =
      (failedHandles (Broker.publish send reg topicName payload timestamp).report).foldl
        Broker.disconnect
        (reg.update topicName (fun t => (t.publish send payload timestamp).1)) := rfl
  rw [hreg, subscribersOf_disconnect_all, subscribersOf_published]

theorem mem_failedHandles (g : ConnId → Int) (x : ConnId) (l : List ConnId) :
    x ∈ failedHandles (l.map (fun h => (h, g h))) ↔ x ∈ l ∧ g x ≠ 0 := by
  simp only [failedHandles, List.mem_map, List.mem_filter, bne_iff_ne, ne_eq]
  constructor
  · rintro ⟨r, ⟨⟨h, hh, rfl⟩, hr⟩, rfl⟩
    exact ⟨hh, hr⟩
  · rintro ⟨hx, hg⟩
    exact ⟨(x, g x), ⟨⟨x, hx, rfl⟩, hg⟩, rfl⟩

theorem attemptsTo_map (g : ConnId → Int) (handle : ConnId) : ∀ (l : List ConnId),
    attemptsTo handle (l.map (fun h => (h, g h))) = l.count handle := by
  intro l
  induction l with
  | nil => rfl
  | cons x xs ih =>
    simp only [attemptsTo] at ih
    simp only [attemptsTo, List.map_cons, List.filter_cons, List.count_cons]
    by_cases hx : x = handle
    · simp [hx, ih]
    · have hx2 : (x == handle) = false := by simpa using hx
      simp [hx2, ih]

theorem deliveriesTo_map (g : ConnId → Int) (handle : ConnId) : ∀ (l : List ConnId),
    deliveriesTo handle (l.map (fun h => (h, g h))) =
      if g handle = 0 then l.count handle else 0 := by
  intro l
  induction l with
  | nil => simp [deliveriesTo]
  | cons x xs ih =>
    simp only [deliveriesTo] at ih
    simp only [deliveriesTo, List.map_cons, List.filter_cons, List.count_cons]
    by_cases hx : x = handle
    · subst hx
      by_cases hg : g x = 0
      · simp [hg, ih]
      · simp [hg, ih]
    · have hx2 : (x == handle) = false := by simpa using hx
      simp [hx2, ih]

/-- A publish keeps the subscriber sets unique, and keeps every member whose
send did not fail. -/
theorem publish_keeps (send : ConnId → String → Int → Int) (reg : TopicRegistry)
    (topicName payload : String) (timestamp : Int) (name : String) :
    ((reg.subscribersOf name).Nodup →
      ((Broker.publish send reg topicName payload timestamp).registry.subscribersOf
        name).Nodup) ∧
    (∀ x, send x payload timestamp = 0 → x ∈ reg.subscribersOf name →
      x ∈ (Broker.publish send reg topicName payload timestamp).registry.subscribersOf name) := by
  rw [subscribersOf_publish]
  constructor
  · intro hn
    exact hn.filter _
  · intro x hx hmem
    rw [List.mem_filter]
    refine ⟨hmem, ?_⟩
    rw [report_publish]
    simp only [decide_eq_true_eq]
    intro hf
    exact ((mem_failedHandles _ x _).1 hf).2 hx

/-- What the specification says about a failed send (sections 7 and 8): the
subscriber is removed from every topic, so no later publish reaches it. -/
theorem publish_removes_failed (send : ConnId → String → Int → Int) (reg : TopicRegistry)
    (topicName payload : String) (timestamp : Int) (handle : ConnId)
    (hsub : handle ∈ reg.subscribersOf topicName)
    (hfail : send handle payload timestamp ≠ 0) (name : String) :
    handle ∉ (Broker.publish send reg topicName payload timestamp).registry.subscribersOf
      name := by
  rw [subscribersOf_publish, List.mem_filter, report_publish]
  rintro ⟨_, hnot⟩
  simp only [decide_eq_true_eq] at hnot
  exact hnot ((mem_failedHandles _ handle _).2 ⟨hsub, hfail⟩)

/-- The invariant "membership unique" of the subscriber sets holds in the
empty registry and is kept by every command the broker handles. -/
theorem unique_members_kept (send : ConnId → String → Int → Int) :
    (∀ name, (TopicRegistry.subscribersOf [] name).Nodup) ∧
    (∀ (reg : TopicRegistry) (command : BrokerCommand) (name : String),
      (reg.subscribersOf name).Nodup →
      ((Broker.apply send reg command).subscribersOf name).Nodup) := by
  refine ⟨?_, ?_⟩
  · intro name
    simp [TopicRegistry.subscribersOf, TopicRegistry.lookup]
  · intro reg command name h
    cases command with
    | subscribe handle topicNames => exact (subscribe_keeps handle name topicNames reg).1 h
    | publish topicName payload timestamp =>
      exact (publish_keeps send reg topicName payload timestamp name).1 h

theorem run_keeps_unique (send : ConnId → String → Int → Int) (name : String) :
    ∀ (commands : List BrokerCommand) (reg : TopicRegistry),
    (reg.subscribersOf name).Nodup → ((Broker.run send reg commands).subscribersOf name).Nodup := by
  intro commands
  induction commands with
  | nil => intro reg h; exact h
  | cons c cs ih =>
    intro reg h
    simp only [Broker.run, List.foldl_cons]
    exact ih _ ((unique_members_kept send).2 reg c name h)

/-- A subscriber whose sends succeed stays subscribed, whatever commands the
broker handles. -/
theorem run_keeps_member (send : ConnId → String → Int → Int) (handle : ConnId)
    (hlive : ∀ payload timestamp, send handle payload timestamp = 0) (name : String) :
    ∀ (commands : List BrokerCommand) (reg : TopicRegistry),
    handle ∈ reg.subscribersOf name → handle ∈ (Broker.run send reg commands).subscribersOf name := by
  intro commands
  induction commands with
  | nil => intro reg h; exact h
  | cons c cs ih =>
    intro reg h
    simp only [Broker.run, List.foldl_cons]
    apply ih
    cases c with
    | subscribe h2 topicNames => exact (subscribe_keeps h2 name topicNames reg).2 handle h
    | publish topicName payload timestamp =>
      exact (publish_keeps send reg topicName payload timestamp name).2 handle
        (hlive payload timestamp) h

/-- Claim C16: when the subscriber set of a topic has unique members,
subscribing the same connection to that topic twice leaves the set with a
single entry for the connection (the second subscribe changes nothing).
Hence each subsequent publish to the topic, whatever commands the broker
handles in between, makes at most one send to that connection, never two;
and for a connection whose sends succeed it makes exactly one send, which is
a delivery: the connection receives the payload exactly once. -/
theorem C16_subscribe_idempotent (send : ConnId → String → Int → Int) (reg : TopicRegistry)
    (handle : ConnId) (name : String) (hunique : (reg.subscribersOf name).Nodup) :
    ((Broker.subscribe (Broker.subscribe reg handle [name]) handle [name]).subscribersOf
        name).count handle = 1 ∧
    (Broker.subscribe (Broker.subscribe reg handle [name]) handle [name]).subscribersOf name =
      (Broker.subscribe reg handle [name]).subscribersOf name ∧
    (∀ (commands : List BrokerCommand) (payload : String) (timestamp : Int),
      attemptsTo handle
        (Broker.publish send
          (Broker.run send
            (Broker.subscribe (Broker.subscribe reg handle [name]) handle [name]) commands)
          name payload timestamp).report ≤ 1) ∧
    ((∀ payload timestamp, send handle payload timestamp = 0) →
      ∀ (commands : List BrokerCommand) (payload : String) (timestamp : Int),
        attemptsTo handle
          (Broker.publish send
            (Broker.run send
              (Broker.subscribe (Broker.subscribe reg handle [name]) handle [name]) commands)
            name payload timestamp).report = 1 ∧
        deliveriesTo handle
          (Broker.publish send
            (Broker.run send
              (Broker.subscribe (Broker.subscribe reg handle [name]) handle [name]) commands)
            name payload timestamp).report = 1) := by
  have h1 := subscribersOf_subscribe_one reg handle name
  have hmem1 : handle ∈ (Broker.subscribe reg handle [name]).subscribersOf name := by
    rw [h1]; split
    · assumption
    · simp
  have h2 := subscribersOf_subscribe_one (Broker.subscribe reg handle [name]) handle name
  rw [if_pos hmem1] at h2
  have hnodup1 : ((Broker.subscribe reg handle [name]).subscribersOf name).Nodup :=
    (subscribe_keeps handle name [name] reg).1 hunique
  have hnodup2 : ((Broker.subscribe (Broker.subscribe reg handle [name]) handle
      [name]).subscribersOf name).Nodup := by rw [h2]; exact hnodup1
  have hmem2 : handle ∈ (Broker.subscribe (Broker.subscribe reg handle [name]) handle
      [name]).subscribersOf name := by rw [h2]; exact hmem1
  refine ⟨?_, h2, ?_, ?_⟩
  · rw [h2]
    exact List.count_eq_one_of_mem hnodup1 hmem1
  · intro commands payload timestamp
    rw [report_publish, attemptsTo_map]
    exact List.nodup_iff_count_le_one.1 (run_keeps_unique send name commands _ hnodup2) handle
  · intro hlive commands payload timestamp
    have hcount : ((Broker.run send (Broker.subscribe (Broker.subscribe reg handle [name])
        handle [name]) commands).subscribersOf name).count handle = 1 :=
      List.count_eq_one_of_mem (run_keeps_unique send name commands _ hnodup2)
        (run_keeps_member send handle hlive name commands _ hmem2)
    rw [report_publish, attemptsTo_map, deliveriesTo_map, if_pos (hlive payload timestamp)]
    exact ⟨hcount, hcount⟩

theorem C16_subscribe_idempotent_witness :
    (TopicRegistry.subscribersOf [] "weather").Nodup ∧
    Broker.subscribe (Broker.subscribe [] 7 ["weather"]) 7 ["weather"] =
      [{ Topic.empty "weather" with subscribers := [7] }] ∧
    ((Broker.subscribe (Broker.subscribe [] 7 ["weather"]) 7 ["weather"]).subscribersOf
        "weather").count 7 = 1 ∧
    ∀ (commands : List BrokerCommand) (payload : String) (timestamp : Int),
      attemptsTo 7
        (Broker.publish (fun _ _ _ => 0)
          (Broker.run (fun _ _ _ => 0)
            (Broker.subscribe (Broker.subscribe [] 7 ["weather"]) 7 ["weather"]) commands)
          "weather" payload timestamp).report = 1 ∧
      deliveriesTo 7
        (Broker.publish (fun _ _ _ => 0)
          (Broker.run (fun _ _ _ => 0)
            (Broker.subscribe (Broker.subscribe [] 7 ["weather"]) 7 ["weather"]) commands)
          "weather" payload timestamp).report = 1 :=
  ⟨by simp [TopicRegistry.subscribersOf, TopicRegistry.lookup], by decide,
    (C16_subscribe_idempotent (fun _ _ _ => 0) [] 7 "weather"
      (by simp [TopicRegistry.subscribersOf, TopicRegistry.lookup])).1,
    (C16_subscribe_idempotent (fun _ _ _ => 0) [] 7 "weather"
      (by simp [TopicRegistry.subscribersOf, TopicRegistry.lookup])).2.2.2 (fun _ _ => rfl)⟩

/-- With a send that fails, the second subscribe still leaves one entry and
the next publish makes one send to the connection; the send fails, nothing is
delivered, the connection is unsubscribed and the publish after that makes no
send to it. -/
theorem failed_send_unsubscribes :
    attemptsTo 7
      (Broker.publish (fun _ _ _ => 1)
        (Broker.subscribe (Broker.subscribe [] 7 ["weather"]) 7 ["weather"])
        "weather" "rain" 0).report = 1 ∧
    deliveriesTo 7
      (Broker.publish (fun _ _ _ => 1)
        (Broker.subscribe (Broker.subscribe [] 7 ["weather"]) 7 ["weather"])
        "weather" "rain" 0).report = 0 ∧
    (Broker.publish (fun _ _ _ => 1)
        (Broker.subscribe (Broker.subscribe [] 7 ["weather"]) 7 ["weather"])
        "weather" "rain" 0).registry.subscribersOf "weather" = [] ∧
    attemptsTo 7
      (Broker.publish (fun _ _ _ => 1)
        (Broker.publish (fun _ _ _ => 1)
          (Broker.subscribe (Broker.subscribe [] 7 ["weather"]) 7 ["weather"])
          "weather" "rain" 0).registry
        "weather" "sun" 1).report = 0 := by
  decide

end PubSub
